import Mathlib

/-!
# Verification of the doc-analyzer analysis core

This file gives a shallow embedding, in Lean 4, of the numerical and
orchestration kernels of the `doc-analyzer` service (Go), together with
theorems settling a list of behavioural claims about them.

Modelling conventions, used consistently below:

* Go `float64`/`float32` arithmetic is modelled by exact arithmetic over `ℚ`
  (or over `ℝ` where the code applies `math.Sqrt`, `math.Log` or `math.Pow`).
  All concrete inputs appearing in theorems keep comparisons far away from
  rounding boundaries, so the exact-arithmetic model decides every comparison
  the same way IEEE-754 double precision does.  The one code path whose
  stated behaviour is sensitive to double rounding - the index computation
  of `sampleStatements` - is instead modelled bit-exactly, by an explicit
  round-to-nearest-even function `f64Round` applied after every operation.
* Go slices are Lean lists; out-of-range reads that cannot occur at the
  modelled call sites (rectangular matrices, guarded indices) use `getD`.
* Go's `sort.Slice` / `sort.Float64s` are modelled by the stable insertion
  sort `List.insertionSort`.  For slices of fewer than 13 elements this is
  exactly the algorithm the Go runtime executes (the insertion-sort small
  case of its pattern-defeating quicksort); every theorem below that depends
  on the relative order of elements whose keys compare equal evaluates the
  sort only in that regime, and all other theorems use only
  comparator-sortedness and permutation facts that hold for any correct
  implementation of the `sort.Slice` contract.
* Fallible or panicking code returns `Option` / `Except`; a Go runtime panic
  is modelled as `none`.
* `math/rand` sources are modelled by a concrete deterministic stream
  (`GoRand`).  The exact values of the stream are irrelevant to every
  theorem below; only the fact that `rand.New(rand.NewSource(seed))` is a
  deterministic function of `seed` (documented Go behaviour) is used.
-/

namespace DocAnalyzer

/-- Model of Go's conversion `int64(f)` restricted to its rounding behaviour:
truncation toward zero. -/
def ratTrunc (q : ℚ) : Int :=
  if 0 ≤ q then ⌊q⌋ else -⌊-q⌋

/-- The largest finite `float64`, used by the Go code as the initial value of
running minima/maxima (`math.MaxFloat64`). -/
def maxFloat64 : ℚ := (2 ^ 53 - 1) * 2 ^ 971

/-- Model of Go's `sort.Slice(l, less)`: the stable insertion sort ordered by
the comparator.  `lt` is the Go `less` function; an element `a` precedes `b`
in the output iff `¬ lt b a` holds between them along the list.  For slices
of fewer than 13 elements this is bit-for-bit the algorithm Go runs. -/
def goSortSlice {α : Type} (lt : α → α → Bool) (l : List α) : List α :=
  List.insertionSort (fun a b => lt b a = false) l

/-- Sum of pairwise products, the dot product on rational vectors. -/
def dotQ (a b : List ℚ) : ℚ := (List.zipWith (fun x y => x * y) a b).sum

/- ## Coordinate normalization (`visualization.normalizeCoordinates`)

Source: `internal/visualization/reducer.go`.  Per output dimension `j` the
code computes the running minimum and maximum over all rows (starting from
`math.MaxFloat64` and `-math.MaxFloat64`), then maps `v` to
`2*(v-min)/range - 1`, or to `0` when the range is zero.  The number of
dimensions is the length of the first row; all call sites pass rectangular
matrices. -/

/-- Running minimum of column `j` over all rows, seeded with `math.MaxFloat64`
exactly as the Go loop does. -/
def colMin (coords : List (List ℚ)) (j : Nat) : ℚ :=
  coords.foldl (fun m row => let v := row.getD j 0; if v < m then v else m) maxFloat64

/-- Running maximum of column `j` over all rows, seeded with
`-math.MaxFloat64`. -/
def colMax (coords : List (List ℚ)) (j : Nat) : ℚ :=
  coords.foldl (fun m row => let v := row.getD j 0; if m < v then v else m) (-maxFloat64)

/-- Model of `normalizeCoordinates`: per-dimension min-max mapping into
`[-1, 1]`, with a zero-range dimension mapped to the constant `0`. -/
def normalizeCoordinates (coords : List (List ℚ)) : List (List ℚ) :=
  match coords with
  | [] => []
  | r0 :: _ =>
    let dims := r0.length
    coords.map (fun row =>
      (List.range dims).map (fun j =>
        let mn := colMin coords j
        let mx := colMax coords j
        let rng := mx - mn
        if rng = 0 then 0 else 2 * (row.getD j 0 - mn) / rng - 1))

/- ## Semantic axes (`internal/visualization/semantic.go`) -/

/-- A semantic axis as the source defines it: a word, the index of the
dimension carrying the anchor embedding's largest absolute value, and the
embedding's value at that index. -/
structure SemanticAxis where
  word : String
  dimension : Nat
  maxValue : ℚ
  deriving Repr, DecidableEq

/-- Model of `findMaxDimension`: index of the first strictly-largest absolute
value of the embedding, together with the embedding's value there.  (Go
panics on an empty embedding; the model returns `(0, 0)`, a case no call
site below exercises.) -/
def findMaxDimension (embedding : List ℚ) : Nat × ℚ :=
  let step := fun (acc : Nat × ℚ × Nat) (v : ℚ) =>
    let absV := if v < 0 then -v else v
    let i := acc.2.2
    if acc.2.1 < absV then (i, absV, i + 1) else (acc.1, acc.2.1, i + 1)
  let r := embedding.foldl step (0, 0, 0)
  (r.1, embedding.getD r.1 0)

/-- Model of `SemanticProjector.FindSemanticAxis`, with the embedding client
replaced by the anchor word's embedding vector itself. -/
def mkSemanticAxis (word : String) (embedding : List ℚ) : SemanticAxis :=
  let dm := findMaxDimension embedding
  { word := word, dimension := dm.1, maxValue := dm.2 }

/-- Model of `ProjectToAxes`: each projected coordinate is the single
component of the statement embedding at the axis' stored dimension (or the
zero-initialised slot when that dimension is out of range), followed by
`normalizeCoordinates`. -/
def ProjectToAxes (embeddings : List (List ℚ)) (axes : List SemanticAxis) :
    List (List ℚ) :=
  if embeddings.length = 0 ∨ axes.length = 0 then []
  else
    normalizeCoordinates (embeddings.map (fun emb =>
      axes.map (fun axis =>
        if axis.dimension < emb.length then emb.getD axis.dimension 0 else 0)))

/-- The projection the specification describes (stated for comparison with the
source's `ProjectToAxes`): dot product of the statement embedding with each
anchor word's full embedding, followed by `normalizeCoordinates`. -/
def projectToAxesDotSpec (embeddings : List (List ℚ))
    (anchors : List (List ℚ)) : List (List ℚ) :=
  if embeddings.length = 0 ∨ anchors.length = 0 then []
  else
    normalizeCoordinates (embeddings.map (fun emb =>
      anchors.map (fun anchor => dotQ emb anchor)))

/- ## Deterministic sub-sampling (`api.sampleStatements`)

The Go sampler computes its step and indices in `float64`:
`step := float64(len(statements)) / float64(maxCount)` and
`idx := int(float64(i) * step)`.  The claim under scrutiny names the exact
index value, which is sensitive to double-precision rounding, so these two
lines are modelled bit-exactly: every arithmetic operation and every
`int`-to-`float64` conversion rounds its exact rational result to the
nearest IEEE-754 binary64 value (ties to even), and `int(x)` truncates
toward zero.  Operands in the open interval `(0, 1)` cannot arise in this
computation (the step is computed only when `len(statements) > maxCount`,
and every other operand is a product of non-negative integers and such
steps), so `f64Round` passes them through unchanged; subnormals and
overflow are likewise unreachable here. -/

/-- The point budget of the visualization handler
(`maxVisualizationPoints`). -/
def maxVisualizationPoints : Nat := 1000

/-- The nearest integer to `a / b` (for `b > 0`), rounding ties to even:
the integer-rounding core of IEEE-754 round-to-nearest. -/
def roundNearestEven (a b : ℕ) : ℕ :=
  if 2 * (a % b) < b then a / b
  else if b < 2 * (a % b) then a / b + 1
  else if (a / b) % 2 = 0 then a / b else a / b + 1

/-- Round a non-negative exact rational to the nearest IEEE-754 binary64
value (round-to-nearest, ties-to-even).  A value `x ≥ 1` with
`2^e ≤ x < 2^(e+1)` is scaled to the significand range `[2^52, 2^53)`,
rounded to the nearest integer significand (ties to even) and scaled back.
Zero and negative inputs map to `0`; values in `(0, 1)` are returned
unchanged (none are produced by the modelled code path). -/
def f64Round (x : ℚ) : ℚ :=
  if x ≤ 0 then 0
  else if x < 1 then x
  else if Nat.log2 (x.num.toNat / x.den) ≤ 52 then
    (roundNearestEven (x.num.toNat * 2 ^ (52 - Nat.log2 (x.num.toNat / x.den))) x.den : ℚ)
      / 2 ^ (52 - Nat.log2 (x.num.toNat / x.den))
  else
    (roundNearestEven x.num.toNat (x.den * 2 ^ (Nat.log2 (x.num.toNat / x.den) - 52)) : ℚ)
      * 2 ^ (Nat.log2 (x.num.toNat / x.den) - 52)

/-- The sampling step `float64(n) / float64(maxCount)` of
`sampleStatements`, with both integer conversions and the division rounded
to binary64. -/
def sampleStep (n maxCount : ℕ) : ℚ :=
  f64Round (f64Round (n : ℚ) / f64Round (maxCount : ℚ))

/-- The sampling index `int(float64(i) * step)`: the conversion and the
product are rounded to binary64, the result truncated toward zero. -/
def sampleIdx (n maxCount i : ℕ) : ℕ :=
  (ratTrunc (f64Round (f64Round (i : ℚ) * sampleStep n maxCount))).toNat

/-- Model of `sampleStatements`: if the list fits in the budget return it
unchanged, otherwise take `maxCount` elements at the float64-computed
indices `int(float64(i) * step)`.  An out-of-range index (a Go slice-bounds
panic) is modelled by `getD`'s default; `sampleIdx_lt` below proves the
index stays in range at the handler's call site (`maxCount = 1000`). -/
def sampleStatements {α : Type} [Inhabited α] (statements : List α)
    (maxCount : Nat) : List α :=
  if statements.length ≤ maxCount then statements
  else
    (List.range maxCount).map
      (fun (i : ℕ) => statements.getD (sampleIdx statements.length maxCount i) default)

/- ## Elbow selection (`clustering.findElbow`) -/

/-- Model of the file-local `abs` helper in `isolation.go`'s clustering
section. -/
def absQ (x : ℚ) : ℚ := if x < 0 then -x else x

/-- The ten Newton iterations of the file-local `sqrt` helper. -/
def sqrtLoop : Nat → ℚ → ℚ → ℚ
  | 0, _, z => z
  | n + 1, x, z => sqrtLoop n x (z - (z * z - x) / (2 * z))

/-- Model of the file-local `sqrt` helper: `0` for non-positive input,
otherwise ten Newton iterations started at the argument itself. -/
def newtonSqrt (x : ℚ) : ℚ := if x ≤ 0 then 0 else sqrtLoop 10 x x

/-- The numerator of `findElbow`'s point-to-line distance at index `i`: the
normalized curve point is `(x0, y0)`, the normalized line endpoints are
`(0, 1)` and `(1, 0)` as in the source's `nx1, ny1, nx2, ny2`. -/
def elbowNum (inertias : List ℚ) (n i : Nat) : ℚ :=
  let y1 := inertias.getD 0 0
  let y2 := inertias.getD (n - 1) 0
  let xRange : ℚ := ((n : ℚ) - 1) - 0
  let yRange : ℚ := y1 - y2
  let x0 : ℚ := (i : ℚ) / xRange
  let y0 : ℚ := (inertias.getD i 0 - y2) / yRange
  absQ ((0 - 1) * x0 - (1 - 0) * y0 + 1 * 1 - 0 * 0)

/-- The denominator of `findElbow`'s point-to-line distance: the Newton
square root of the normalized line's squared length. -/
def elbowDen : ℚ :=
  newtonSqrt ((0 - 1) * (0 - 1) + (1 - 0) * (1 - 0))

/-- One candidate step of `findElbow`'s scan: given the curve data and the
running `(maxDist, elbow)` state, process index `i`. -/
def elbowStep (inertias : List ℚ) (n : Nat) (acc : ℚ × Nat) (i : Nat) :
    ℚ × Nat :=
  let dist := elbowNum inertias n i / elbowDen
  if acc.1 < dist then (dist, i + 1) else acc

/-- Model of `findElbow`: curves of at most two points return their length;
otherwise the scan over `i ∈ [1, n-1)` keeps the `k = i + 1` whose normalized
point lies farthest from the line joining the normalized endpoints. -/
def findElbow (inertias : List ℚ) : Nat :=
  if inertias.length ≤ 2 then inertias.length
  else
    let n := inertias.length
    ((List.range' 1 (n - 2)).foldl (elbowStep inertias n) (0, 1)).2

/- ## Cached embedding client (`embeddings/cache.go`) -/

/-- An embedding vector. -/
abbrev Vec := List ℚ

/-- Model of the hit/miss recombination loop at the end of
`CachedClient.EmbedTexts`: walk the texts in order, taking a hit's vector
from the cache view and a miss's vector from the next unconsumed slot of the
freshly generated embeddings.  Running out of fresh embeddings models the Go
index-out-of-range panic (`none`); surplus fresh embeddings are ignored, as
the Go loop never reads them. -/
def combineEmb (key : String → String) (cache : String → Option Vec) :
    List String → List Vec → Option (List Vec)
  | [], _ => some []
  | t :: ts, news =>
    (cache (key t)).elim
      (match news with
       | [] => none
       | v :: rest => (combineEmb key cache ts rest).map (fun r => v :: r))
      (fun v => (combineEmb key cache ts news).map (fun r => v :: r))

/-- Model of `CachedClient.EmbedTexts`.  `key` composes `GenerateCacheKey`
with the configured model; `cache` is the bulk view returned by `GetMulti`;
`remote` is the wrapped `Client.EmbedTexts`.  The second component of the
result is the batch of texts dispatched to the remote client (empty when no
remote call happens).  `SetMulti` write-back has no observable effect on the
returned value and is omitted. -/
def cachedEmbedTexts (key : String → String) (cache : String → Option Vec)
    (remote : List String → Except Unit (List Vec)) (texts : List String) :
    Except Unit (Option (List Vec)) × List String :=
  if texts.length = 0 then (Except.ok (some []), [])
  else if (texts.filter (fun t => (cache (key t)).isNone)).length = 0 then
    (Except.ok (combineEmb key cache texts []), [])
  else
    match remote (texts.filter (fun t => (cache (key t)).isNone)) with
    | Except.error e =>
      (Except.error e, texts.filter (fun t => (cache (key t)).isNone))
    | Except.ok news =>
      (Except.ok (combineEmb key cache texts news),
        texts.filter (fun t => (cache (key t)).isNone))

/-- Concrete cache fixture for the C7 witness. -/
def witnessCache : String → Option Vec := fun u =>
  if u = "a" then some [1] else none

/-- Concrete remote-client fixture for the C7 witness: one constant vector
per dispatched text. -/
def witnessRemote : List String → Except Unit (List Vec) := fun ts =>
  Except.ok (ts.map (fun _ => [7]))

/- ## Embedding batch write-back (`embeddings.Client.embedBatch`) -/

/-- One `data` entry of a parsed embeddings-API response: an index and a
vector. -/
structure EmbEntry where
  index : Int
  embedding : Vec
  deriving Repr, DecidableEq

/-- Model of the write-back loop of `embedBatch` on a parsed 2xx response:
slots start as `nil` vectors (`none`); an entry whose index is `≥ len` is
skipped by the guard `data.Index < len(embeddings)`; an entry with a negative
index passes that guard and the write `embeddings[data.Index] = …` panics
(`none` result). -/
def embedBatchWriteback (texts : List String) (entries : List EmbEntry) :
    Option (List (Option Vec)) :=
  entries.foldl
    (fun acc e =>
      acc.bind (fun slots =>
        if e.index < (texts.length : Int) then
          if e.index < 0 then none
          else some (slots.set e.index.toNat (some e.embedding))
        else some slots))
    (some (List.replicate texts.length (none : Option Vec)))

/- ## Contradiction driver (`contradiction` package) -/

/-- The fields of a statement pair the driver inspects. -/
structure StatementPair where
  statement1 : String
  statement2 : String
  similarity : ℚ
  deriving Repr, DecidableEq

/-- The fields of a contradiction record the driver produces and sorts. -/
structure ContradictionResult where
  statement1 : String
  statement2 : String
  ctype : String
  severity : String
  confidence : ℚ
  deriving Repr, DecidableEq

/-- Model of `severityOrder`. -/
def severityOrder (s : String) : Nat :=
  if s = "high" then 3
  else if s = "medium" then 2
  else if s = "low" then 1
  else 0

/-- Model of `filterPairs`: keep the pairs whose similarity is at least the
minimum. -/
def filterPairs (pairs : List StatementPair) (minSimilarity : ℚ) :
    List StatementPair :=
  pairs.filter (fun p => minSimilarity ≤ p.similarity)

/-- Model of `Analyzer.AnalyzePairs`.  `classify` is the outcome of
`AnalyzePair` for each pair (an error, a nil result for a negative verdict,
or a contradiction record); `arrival` is the order in which the goroutines'
results are received from the channel, as a list of indices into `pairs`
(the concurrent completion order, a schedule parameter of the model).
Erroneous results are skipped, as are nil results and results with an empty
type; the operation itself never fails. -/
def analyzePairs (classify : StatementPair → Except Unit (Option ContradictionResult))
    (pairs : List StatementPair) (arrival : List Nat) : List ContradictionResult :=
  arrival.filterMap (fun idx =>
    match pairs.get? idx with
    | none => none
    | some p =>
      match classify p with
      | Except.error _ => none
      | Except.ok none => none
      | Except.ok (some r) => if r.ctype = "" then none else some r)

/-- Model of `Service.DetectContradictions`: similarity filter, optional
top-`maxPairs` truncation by similarity, classification with the given
arrival schedule, and a final sort whose comparator is
`severityOrder(a) > severityOrder(b)` - and nothing else. -/
def detectContradictions (minSimilarity : ℚ) (maxPairs : Nat)
    (classify : StatementPair → Except Unit (Option ContradictionResult))
    (pairs : List StatementPair) (arrival : List Nat) : List ContradictionResult :=
  let filtered := filterPairs pairs minSimilarity
  let limited :=
    if maxPairs < filtered.length then
      (goSortSlice (fun a b => decide (b.similarity < a.similarity)) filtered).take
        maxPairs
    else filtered
  let results := analyzePairs classify limited arrival
  goSortSlice (fun a b => decide (severityOrder b.severity < severityOrder a.severity))
    results

/-- The ordering the claim asserts for `DetectContradictions` output:
non-increasing severity, and non-increasing confidence within equal
severity. -/
def sortedBySeverityThenConfidence : List ContradictionResult → Prop :=
  List.Pairwise (fun a b =>
    severityOrder b.severity < severityOrder a.severity ∨
      (severityOrder a.severity = severityOrder b.severity ∧
        b.confidence ≤ a.confidence))

instance : DecidablePred sortedBySeverityThenConfidence := fun l =>
  List.instDecidablePairwise l

/- ## Deterministic pseudo-randomness (model of `math/rand`) -/

/-- A `math/rand` source.  The concrete stream below is a stand-in for Go's
lagged-Fibonacci source: its exact values are irrelevant to every theorem in
this file, which depend only on the documented fact that a source seeded via
`rand.NewSource(seed)` is a deterministic function of `seed`. -/
structure GoRand where
  state : Nat
  deriving Repr, DecidableEq

/-- One step of the model stream (a 64-bit linear congruence). -/
def goRandStep (s : Nat) : Nat :=
  (6364136223846793005 * s + 1442695040888963407) % 2 ^ 64

/-- Reduce an integer into the signed 64-bit range, modelling Go's wrapping
`int64` arithmetic. -/
def wrap64 (x : Int) : Int := (x + 2 ^ 63) % 2 ^ 64 - 2 ^ 63

/-- Model of `rand.New(rand.NewSource(seed))`. -/
def mkGoRand (seed : Int) : GoRand := ⟨(seed % (2 ^ 64 : Int)).toNat⟩

/-- Draw the next raw value. -/
def GoRand.next (r : GoRand) : Nat × GoRand :=
  let s := goRandStep r.state
  (s, ⟨s⟩)

/-- Model of `Rand.Intn`: a value in `[0, n)` (for `n > 0`). -/
def GoRand.intn (r : GoRand) (n : Nat) : Nat × GoRand :=
  let p := r.next
  (p.1 % n, p.2)

/-- Model of `Rand.Float64`: a value in `[0, 1)`. -/
def GoRand.float64 (r : GoRand) : ℚ × GoRand :=
  let p := r.next
  ((p.1 % 2 ^ 53 : ℚ) / 2 ^ 53, p.2)

/- ## K-means (`clustering` package) -/

/-- Model of Go's `int64(f)` conversion including 64-bit reduction. -/
def goFloatToInt64 (q : ℚ) : Int := wrap64 (ratTrunc q)

/-- Model of `computeDataSeed`: a deterministic seed built from the number of
rows, the dimensionality, and the first coordinate of the first, middle and
last rows.  (Go reads `data[mid][0]` unguarded; the model's `getD`/`headD`
defaults never fire on the rectangular non-empty-row inputs of the call
sites.) -/
def computeDataSeed (data : List (List ℚ)) : Int :=
  if data.length = 0 then 42
  else
    let seed0 : Int := data.length
    if 0 < (data.headD []).length then
      let seed1 := wrap64 (seed0 + wrap64 (((data.headD []).length : Int) * 1000))
      let seed2 := wrap64 (seed1 + goFloatToInt64 ((data.headD []).headD 0 * 1000000))
      let seed3 :=
        if 1 < data.length then
          wrap64 (seed2 +
            goFloatToInt64 ((data.getD (data.length / 2) []).headD 0 * 1000000))
        else seed2
      let seed4 :=
        if 2 < data.length then
          wrap64 (seed3 +
            goFloatToInt64 ((data.getD (data.length - 1) []).headD 0 * 1000000))
        else seed3
      seed4
    else seed0

/-- Model of the file-local `squaredEuclideanDistance` (iteration is over the
first argument's indices, as in the Go `for i := range a`). -/
def squaredEuclideanDistance (a b : List ℚ) : ℚ :=
  ((List.range a.length).map (fun i =>
    let diff := a.getD i 0 - b.getD i 0
    diff * diff)).sum

/-- Squared distance to the nearest of the given centroids, seeded with
`math.MaxFloat64` as in the Go loops. -/
def nearestCentroidDist (centroids : List (List ℚ)) (point : List ℚ) : ℚ :=
  centroids.foldl
    (fun m c =>
      let d := squaredEuclideanDistance point c
      if d < m then d else m)
    maxFloat64

/-- The cumulative-sum selection of k-means++: the first index whose running
sum of distances reaches `r` (`cumSum >= r` in the source).  `none` models
the Go loop finishing without a `break`, in which case no centroid is
appended. -/
def selectByCumSum (dists : List ℚ) (r : ℚ) : Option Nat :=
  (dists.foldl
    (fun (acc : ℚ × Nat × Option Nat) d =>
      match acc.2.2 with
      | some _ => acc
      | none =>
        let cum := acc.1 + d
        if r ≤ cum then (cum, acc.2.1 + 1, some acc.2.1)
        else (cum, acc.2.1 + 1, none))
    (0, 0, none)).2.2

/-- One round of k-means++: recompute each point's distance to its nearest
chosen centroid and D²-sample the next centroid. -/
def kppStep (data : List (List ℚ)) (st : List (List ℚ) × GoRand) (_ : Nat) :
    List (List ℚ) × GoRand :=
  let centroids := st.1
  let dists := data.map (nearestCentroidDist centroids)
  let totalDist := dists.sum
  let fr := st.2.float64
  let r := fr.1 * totalDist
  match selectByCumSum dists r with
  | some j => (centroids ++ [data.getD j []], fr.2)
  | none => (centroids, fr.2)

/-- Model of `kMeansPlusPlusInit`: the local random source is constructed
from `computeDataSeed` of the data, the first centroid is drawn with `Intn`,
and the remaining `k - 1` are D²-sampled. -/
def kMeansPlusPlusInit (data : List (List ℚ)) (k : Nat) : List (List ℚ) :=
  let rng0 := mkGoRand (computeDataSeed data)
  let fi := rng0.intn data.length
  let start := ([data.getD fi.1 []], fi.2)
  ((List.range' 1 (k - 1)).foldl (kppStep data) start).1

/-- Assign one point to its nearest centroid (first index wins on ties, as
the strict `<` of the source dictates); returns the label and the squared
distance. -/
def assignPoint (centroids : List (List ℚ)) (point : List ℚ) : Nat × ℚ :=
  let r := centroids.foldl
    (fun (acc : Nat × ℚ × Nat) c =>
      let d := squaredEuclideanDistance point c
      if d < acc.2.1 then (acc.2.2, d, acc.2.2 + 1)
      else (acc.1, acc.2.1, acc.2.2 + 1))
    (0, maxFloat64, 0)
  (r.1, r.2.1)

/-- The assignment phase: labels and total inertia. -/
def kMeansAssign (data : List (List ℚ)) (centroids : List (List ℚ)) :
    List Nat × ℚ :=
  let assigned := data.map (assignPoint centroids)
  (assigned.map Prod.fst, (assigned.map Prod.snd).sum)

/-- Elementwise vector addition (`floats.Add`). -/
def addVec (a b : List ℚ) : List ℚ := List.zipWith (fun x y => x + y) a b

/-- The update phase: per-cluster mean of members; a cluster with no members
keeps the zero vector its accumulator started from, exactly as the source's
`counts[i] > 0` guard leaves it. -/
def kMeansUpdate (data : List (List ℚ)) (labels : List Nat) (k dim : Nat) :
    List (List ℚ) :=
  let zero := List.replicate dim (0 : ℚ)
  let sums := (List.range k).map (fun c =>
    ((data.zip labels).filter (fun pl => pl.2 = c)).foldl
      (fun s pl => addVec s pl.1) zero)
  let counts := (List.range k).map (fun c =>
    (labels.filter (fun l => l = c)).length)
  List.zipWith
    (fun s (cnt : Nat) => if 0 < cnt then s.map (fun v => v / (cnt : ℚ)) else s)
    sums counts

/-- Convergence tolerance of `NewKMeans`. -/
def kMeansTolerance : ℚ := 1 / 10000

/-- Maximum iteration count of `NewKMeans`. -/
def kMeansMaxIter : Nat := 100

/-- The assignment/update loop of `KMeans.Fit`: assign, stop when the change
of inertia since the previous iteration is below tolerance (never on the
first iteration), otherwise update centroids and continue; at most
`kMeansMaxIter` iterations.  Returns the labels and inertia of the last
assignment. -/
def kMeansFitLoop (data : List (List ℚ)) (k dim : Nat) :
    Nat → List (List ℚ) → ℚ → Bool → List Nat × ℚ
  | 0, _, _, _ => ([], 0)
  | fuel + 1, centroids, prevInertia, first =>
    let li := kMeansAssign data centroids
    if first = false ∧ absQ (prevInertia - li.2) < kMeansTolerance then li
    else if fuel = 0 then li
    else kMeansFitLoop data k dim fuel (kMeansUpdate data li.1 k dim) li.2 false

/-- Model of `KMeans.Fit` returning labels and final inertia: empty data or
`k ≤ 0` yield no labels; otherwise `k` is clamped to the number of points
and the loop runs from the k-means++ initialization. -/
def kMeansFitFull (embeddings : List (List ℚ)) (k : Nat) : List Nat × ℚ :=
  if embeddings.length = 0 ∨ k = 0 then ([], 0)
  else
    let kk := min k embeddings.length
    let dim := (embeddings.headD []).length
    kMeansFitLoop embeddings kk dim kMeansMaxIter
      (kMeansPlusPlusInit embeddings kk) 0 true

/-- The label sequence of `KMeans.Fit`. -/
def kMeansFit (embeddings : List (List ℚ)) (k : Nat) : List Nat :=
  (kMeansFitFull embeddings k).1

/-- Model of `ClusterStatements` restricted to the claim-relevant outputs:
clamp `k`, fit, and report labels together with the cluster count `k`. -/
def clusterLabels (embeddings : List (List ℚ)) (k : Nat) : List Nat × Nat :=
  if embeddings.length = 0 then ([], 0)
  else
    let kk := min k embeddings.length
    (kMeansFit embeddings kk, kk)

/-- Model of `ElbowMethod`: the inertia curve of fits for `k = 1 .. maxK`
(with `maxK` defaulted to 10 and clamped to the number of points). -/
def elbowMethod (embeddings : List (List ℚ)) (maxK : Nat) : List ℚ :=
  let mK0 := if maxK = 0 then 10 else maxK
  let mK := min mK0 embeddings.length
  (List.range' 1 mK).map (fun k => (kMeansFitFull embeddings k).2)

/-- Modelled from the spec: the coordinate-space auto-clusterer
`AutoClusterCoordinates` called by the visualization handler is not among
the provided sources (only its call sites are).  Per the specification it
clamps `maxK` to the number of points, produces the inertia curve, runs the
elbow selector, and clusters the projected coordinates with the selected
`k` - mirroring the sibling `Service.AutoCluster` that is in the sources.
Returns the label sequence and the cluster count; keyword extraction plays
no role in any claim and is omitted. -/
def autoClusterCoordinates (coords : List (List ℚ)) (maxK : Nat) :
    List Nat × Nat :=
  if coords.length = 0 then ([], 0)
  else
    let mK0 := if maxK = 0 then 10 else maxK
    let mK := min mK0 coords.length
    let inertias := elbowMethod coords mK
    let k := findElbow inertias
    clusterLabels coords k

/-- `KMeans.Fit` in a process context: the state component is the
process-global `math/rand` source (the one the isolation forest draws from).
The fit constructs its own local source from `computeDataSeed` and performs
no read or write of the global source, which this definition makes
explicit. -/
def kMeansFitS (embeddings : List (List ℚ)) (k : Nat) :
    GoRand → List Nat × GoRand :=
  fun s => (kMeansFit embeddings k, s)

/-- The observations `computeDataSeed` may depend on: row count,
dimensionality of the first row, and the leading coordinate of the first,
middle and last rows. -/
def seedObservations (data : List (List ℚ)) : Nat × Nat × ℚ × ℚ × ℚ :=
  (data.length, (data.headD []).length, (data.headD []).headD 0,
    (data.getD (data.length / 2) []).headD 0,
    (data.getD (data.length - 1) []).headD 0)

noncomputable section

/- ## Cosine similarity and pair mining (`similarity` package)

`math.Sqrt` forces this part of the model into `ℝ`; the definitions are
noncomputable and concrete instances are evaluated through `simp` and
`norm_num` in the proofs. -/

/-- Sum of squares of a rational vector. -/
def sumSq (a : List ℚ) : ℚ := (a.map (fun x => x * x)).sum

/-- Model of `CosineSimilarity`: `0` on length mismatch, empty input, or a
zero magnitude; otherwise the dot product over the product of
magnitudes. -/
def cosineSimilarity (a b : List ℚ) : ℝ :=
  if a.length ≠ b.length then 0
  else if a.length = 0 then 0
  else
    let dp : ℝ := ((dotQ a b : ℚ) : ℝ)
    let magA := Real.sqrt ((sumSq a : ℚ) : ℝ)
    let magB := Real.sqrt ((sumSq b : ℚ) : ℝ)
    if magA = 0 ∨ magB = 0 then 0 else dp / (magA * magB)

/-- A similar pair: indices `idx1 < idx2` and their similarity. -/
structure SimilarPair where
  idx1 : Nat
  idx2 : Nat
  similarity : ℝ

/-- `DefaultThreshold`. -/
def defaultThreshold : ℝ := 3 / 4

/-- The upper-triangle index pairs `(i, j)` with `i < j < n`, in the
lexicographic order the source's nested loops produce them. -/
def upperPairs (n : Nat) : List (Nat × Nat) :=
  (List.range n).flatMap
    (fun i => (List.range' (i + 1) (n - (i + 1))).map (fun j => (i, j)))

/-- Model of `FindSimilarPairs`: scan the upper triangle, keep the pairs
whose similarity reaches the threshold (defaulted to 0.75 when the given
threshold is not positive), and sort by similarity descending. -/
def findSimilarPairs (embeddings : List (List ℚ)) (threshold : ℝ) :
    List SimilarPair :=
  if embeddings.length = 0 then []
  else
    let t := if threshold ≤ 0 then defaultThreshold else threshold
    let pairs := (upperPairs embeddings.length).filterMap (fun ij =>
      let sim := cosineSimilarity (embeddings.getD ij.1 [])
        (embeddings.getD ij.2 [])
      if t ≤ sim then some (SimilarPair.mk ij.1 ij.2 sim) else none)
    goSortSlice (fun a b => decide (b.similarity < a.similarity)) pairs

/-- Model of `TopKSimilar`: empty input or a non-positive `k` yield the empty
list; otherwise the result of `FindSimilarPairs` at threshold `0`, truncated
to `k` entries when longer. -/
def topKSimilar (embeddings : List (List ℚ)) (k : Nat) : List SimilarPair :=
  if embeddings.length = 0 ∨ k = 0 then []
  else
    let pairs := findSimilarPairs embeddings 0
    if k < pairs.length then pairs.take k else pairs

/-- The claim's reading of `TopKSimilar` (stated for comparison with the
source): every upper-triangle pair, with no threshold filtering at all,
sorted by similarity descending and truncated to the first `k`. -/
def topKSimilarSpec (embeddings : List (List ℚ)) (k : Nat) : List SimilarPair :=
  let pairs := (upperPairs embeddings.length).map (fun ij =>
    SimilarPair.mk ij.1 ij.2
      (cosineSimilarity (embeddings.getD ij.1 []) (embeddings.getD ij.2 [])))
  (goSortSlice (fun a b => decide (b.similarity < a.similarity)) pairs).take k

/- ## Anomaly detection (`anomaly` package) -/

/-- Model of the `anomaly` package's `euclideanDistance`: `0` on length
mismatch, otherwise the root of the sum of squared coordinate
differences. -/
def euclideanDistanceR (a b : List ℚ) : ℝ :=
  if a.length ≠ b.length then 0
  else
    Real.sqrt
      ((((List.zipWith (fun x y => x - y) a b).map (fun d => d * d)).sum : ℚ) : ℝ)

/-- Model of `sort.Float64s` (ascending); see the `goSortSlice` note on the
insertion-sort regime. -/
def sortFloats (l : List ℝ) : List ℝ :=
  List.insertionSort (fun a b => a ≤ b) l

/-- Model of `normalizeScores`: min-max normalization into `[0, 1]`, with the
all-equal case mapped to the constant `1/2`. -/
def normalizeScoresR (scores : List ℝ) : List ℝ :=
  if scores.length = 0 then scores
  else
    let mn := scores.foldl (fun m s => if s < m then s else m) (scores.headD 0)
    let mx := scores.foldl (fun m s => if m < s then s else m) (scores.headD 0)
    let rng := mx - mn
    if rng = 0 then scores.map (fun _ => (1 : ℝ) / 2)
    else scores.map (fun s => (s - mn) / rng)

/-- Model of `DistanceAnomalyDetector.Detect`: for each point, the average
distance to its `k` nearest neighbours (`k` defaulted to 5 when not
positive, clamped to `n - 1`), then min-max normalized. -/
def distanceDetect (embeddings : List (List ℚ)) (kIn : Int) : List ℝ :=
  let n := embeddings.length
  if n = 0 then []
  else
    let k0 : Int := if kIn ≤ 0 then 5 else kIn
    let k1 : Int := if (n : Int) ≤ k0 then (n : Int) - 1 else k0
    let scores := (List.range n).map (fun i =>
      let distances := ((List.range n).filter (fun j => j ≠ i)).map (fun j =>
        euclideanDistanceR (embeddings.getD i []) (embeddings.getD j []))
      let sorted := sortFloats distances
      let actualK := min k1.toNat sorted.length
      if 0 < actualK then (sorted.take actualK).sum / (actualK : ℝ) else 0)
    normalizeScoresR scores

/-- A node of an isolation tree (`IsolationNode`); a leaf records the size of
the data that reached it. -/
inductive IsoNode where
  | leaf (size : Nat)
  | node (feature : Nat) (split : ℚ) (left right : IsoNode)

/-- Running minimum of a feature over the sample, seeded from the first
row. -/
def featMin (data : List (List ℚ)) (f : Nat) : ℚ :=
  data.foldl (fun m row => let v := row.getD f 0; if v < m then v else m)
    ((data.headD []).getD f 0)

/-- Running maximum of a feature over the sample, seeded from the first
row. -/
def featMax (data : List (List ℚ)) (f : Nat) : ℚ :=
  data.foldl (fun m row => let v := row.getD f 0; if m < v then v else m)
    ((data.headD []).getD f 0)

/-- Model of `buildIsolationTree`.  The fuel argument is `maxDepth - depth`;
fuel `0` is exactly the source's `depth >= maxDepth` leaf case.  Random
draws come from the process-global source threaded in the state. -/
def buildIsolationTreeS : Nat → List (List ℚ) → GoRand → IsoNode × GoRand
  | 0, data => fun s => (IsoNode.leaf data.length, s)
  | fuel + 1, data => fun s =>
    if data.length ≤ 1 then (IsoNode.leaf data.length, s)
    else
      let numFeatures := (data.headD []).length
      if numFeatures = 0 then (IsoNode.leaf data.length, s)
      else
        let fr := s.intn numFeatures
        let feature := fr.1
        let minV := featMin data feature
        let maxV := featMax data feature
        if minV = maxV then (IsoNode.leaf data.length, fr.2)
        else
          let ff := fr.2.float64
          let splitValue := minV + ff.1 * (maxV - minV)
          let left := data.filter (fun p => p.getD feature 0 < splitValue)
          let right := data.filter (fun p => ¬ p.getD feature 0 < splitValue)
          if left.length = 0 ∨ right.length = 0 then
            (IsoNode.leaf data.length, ff.2)
          else
            let lr := buildIsolationTreeS fuel left ff.2
            let rr := buildIsolationTreeS fuel right lr.2
            (IsoNode.node feature splitValue lr.1 rr.1, rr.2)

/-- Model of `sampleData`: identity when the sample size covers the data,
otherwise a Fisher-Yates prefix shuffle of the index array followed by
projection. -/
def sampleDataS (data : List (List ℚ)) (sampleSize : Nat) :
    GoRand → List (List ℚ) × GoRand :=
  let n := data.length
  if n ≤ sampleSize then fun s => (data, s)
  else fun s =>
    let res := (List.range sampleSize).foldl
      (fun (acc : List Nat × GoRand) i =>
        let vr := acc.2.intn (n - i)
        let j := i + vr.1
        let vi := acc.1.getD i 0
        let vj := acc.1.getD j 0
        (((acc.1.set i vj).set j vi), vr.2))
      (List.range n, s)
    ((res.1.take sampleSize).map (fun idx => data.getD idx []), res.2)

/-- Build `count` isolation trees, each on a fresh subsample. -/
def buildForestS : Nat → Nat → Nat → List (List ℚ) → GoRand →
    List IsoNode × GoRand
  | 0, _, _, _ => fun s => ([], s)
  | c + 1, maxDepth, ss, data => fun s =>
    let sr := sampleDataS data ss s
    let tr := buildIsolationTreeS maxDepth sr.1 sr.2
    let rr := buildForestS c maxDepth ss data tr.2
    (tr.1 :: rr.1, rr.2)

/-- Model of `IsolationForest.Fit`: no trees on empty data; otherwise
`numTrees` trees with sample size clamped to `n` and maximum depth
`ceil(log2(sampleSize))`. -/
def isolationFitS (numTrees sampleSize : Nat) (data : List (List ℚ)) :
    GoRand → List IsoNode × GoRand :=
  if data.length = 0 then fun s => ([], s)
  else
    let ss := min sampleSize data.length
    let maxDepth := Nat.clog 2 ss
    buildForestS numTrees maxDepth ss data

/-- Model of `expectedPathLength`: the average unsuccessful-search path
length `c(n)` of a binary search tree. -/
def expectedPathLengthR (n : ℝ) : ℝ :=
  if n ≤ 1 then 0
  else if n ≤ 2 then 1
  else 2 * (Real.log (n - 1) + 0.5772156649) - 2 * (n - 1) / n

/-- Model of `pathLength`: depth of the reached leaf plus the expected
extension for the leaf's size. -/
def pathLengthR (point : List ℚ) : IsoNode → Nat → ℝ
  | IsoNode.leaf size, depth => (depth : ℝ) + expectedPathLengthR (size : ℝ)
  | IsoNode.node f s l r, depth =>
    if point.getD f 0 < s then pathLengthR point l (depth + 1)
    else pathLengthR point r (depth + 1)

/-- Model of `IsolationForest.Score`.  Note that the normalizing constant is
`c(SampleSize)` for the configured (unclamped) sample size, exactly as the
source reads `f.SampleSize`. -/
def isolationScore (trees : List IsoNode) (sampleSize : Nat)
    (data : List (List ℚ)) : List ℝ :=
  if data.length = 0 ∨ trees.length = 0 then []
  else
    let c := expectedPathLengthR (sampleSize : ℝ)
    data.map (fun point =>
      let avg := (trees.map (fun t => pathLengthR point t 0)).sum /
        (trees.length : ℝ)
      (2 : ℝ) ^ (-(avg / c)))

/-- Default `anomaly.Config` values. -/
def anomalyDefaultK : Int := 5

/-- Default number of isolation trees. -/
def anomalyDefaultNumTrees : Nat := 100

/-- Default isolation-forest sample size. -/
def anomalyDefaultSampleSize : Nat := 256

/-- Model of `Service.ensembleScore` under the default configuration: the
elementwise mean of the distance-detector scores and the isolation-forest
scores, the forest freshly fitted on the embeddings using the process-global
random source. -/
def ensembleScoreS (embeddings : List (List ℚ)) (s : GoRand) :
    List ℝ × GoRand :=
  let distScores := distanceDetect embeddings anomalyDefaultK
  let fr := isolationFitS anomalyDefaultNumTrees anomalyDefaultSampleSize
    embeddings s
  let isoScores := isolationScore fr.1 anomalyDefaultSampleSize embeddings
  ((List.range embeddings.length).map (fun i =>
    (distScores.getD i 0 + isoScores.getD i 0) / 2), fr.2)

end

/-!
## Theorems

Each claim of the specification audit is settled by exactly one theorem
below (plus a witness for theorems with hypotheses and a counterexample for
corrected claims).
-/

/-- `goSortSlice` permutes its input (any correct `sort.Slice` does). -/
theorem goSortSlice_perm {α : Type} (lt : α → α → Bool) (l : List α) :
    (goSortSlice lt l).Perm l :=
  List.perm_insertionSort _ l

/-- For a comparator given by a key into a linear order, `goSortSlice`
produces a key-non-increasing list (any correct `sort.Slice` does). -/
theorem goSortSlice_sorted_key {α : Type} {β : Type} [LinearOrder β]
    [DecidableEq α] (key : α → β) (l : List α) :
    List.Pairwise (fun a b => key b ≤ key a)
      (goSortSlice (fun a b => decide (key b < key a)) l) := by
  have htot : IsTotal α (fun a b => decide (key a < key b) = false) := by
    constructor
    intro a b
    rcases le_total (key a) (key b) with h | h
    · exact Or.inr (by simpa using not_lt.mpr h)
    · exact Or.inl (by simpa using not_lt.mpr h)
  have htrans : IsTrans α (fun a b => decide (key a < key b) = false) := by
    constructor
    intro a b c hab hbc
    simp only [decide_eq_false_iff_not, not_lt] at hab hbc ⊢
    exact hbc.trans hab
  have hs := List.sorted_insertionSort
    (fun a b => decide (key a < key b) = false) l
  unfold goSortSlice
  refine List.Pairwise.imp ?_ hs
  intro a b h
  simpa [decide_eq_false_iff_not, not_lt] using h

/- ### Claim C1 - semantic projection -/

/-- Counterexample to claim C1: with statement embeddings `[0, 5]`, `[1, 0]`
and the single anchor embedding `[1, 1]`, the source's `ProjectToAxes`
projects onto the anchor's max-dimension component (index 0) and returns
`[[-1], [1]]`, while the dot-product projection described by the claim
returns `[[1], [-1]]`.  The two disagree, so the projection is not the
dot-product one. -/
theorem projectToAxes_dot_counterexample :
    ProjectToAxes [[0, 5], [1, 0]] [mkSemanticAxis "w" [1, 1]] = [[-1], [1]] ∧
    projectToAxesDotSpec [[0, 5], [1, 0]] [[1, 1]] = [[1], [-1]] ∧
    ProjectToAxes [[0, 5], [1, 0]] [mkSemanticAxis "w" [1, 1]] ≠
      projectToAxesDotSpec [[0, 5], [1, 0]] [[1, 1]] := by
  have h1 : ProjectToAxes [[0, 5], [1, 0]] [mkSemanticAxis "w" [1, 1]] =
      [[-1], [1]] := by
    norm_num [ProjectToAxes, mkSemanticAxis, findMaxDimension,
      normalizeCoordinates, colMin, colMax, maxFloat64, List.range_succ]
  have h2 : projectToAxesDotSpec [[0, 5], [1, 0]] [[1, 1]] = [[1], [-1]] := by
    norm_num [projectToAxesDotSpec, dotQ, normalizeCoordinates, colMin, colMax,
      maxFloat64, List.range_succ]
  refine ⟨h1, h2, ?_⟩
  rw [h1, h2]
  decide

/-- Claim C1, amended: for non-empty statement embeddings and non-empty
anchor words, the semantic projection computes, for each axis, the single
component of the statement embedding at the index of the anchor embedding's
largest absolute value (`0` when that index is out of range), and then
applies min-max normalization across the resulting table; it does not take
dot products with the anchors' full embeddings. -/
theorem projectToAxes_component_projection
    (embeddings : List (List ℚ)) (anchors : List (String × List ℚ))
    (hne : embeddings ≠ []) (han : anchors ≠ []) :
    ProjectToAxes embeddings
        (anchors.map (fun wa => mkSemanticAxis wa.1 wa.2)) =
      normalizeCoordinates (embeddings.map (fun emb =>
        anchors.map (fun wa =>
          if (findMaxDimension wa.2).1 < emb.length then
            emb.getD (findMaxDimension wa.2).1 0
          else 0))) := by
  unfold ProjectToAxes
  rw [if_neg]
  · simp only [List.map_map]
    rfl
  · push_neg
    constructor
    · simpa using hne
    · simpa using han

/-- Witness for the amended C1 theorem at a concrete instance. -/
theorem projectToAxes_component_projection_witness :
    ([[2, 7]] : List (List ℚ)) ≠ [] ∧
    ([("w", [5, 1])] : List (String × List ℚ)) ≠ [] ∧
    ProjectToAxes [[2, 7]] [mkSemanticAxis "w" [5, 1]] =
      normalizeCoordinates [[if (findMaxDimension [5, 1]).1 < 2 then
        ([2, 7] : List ℚ).getD (findMaxDimension [5, 1]).1 0 else 0]] := by
  refine ⟨by decide, by decide, ?_⟩
  have h := projectToAxes_component_projection [[2, 7]] [("w", [5, 1])]
    (by decide) (by decide)
  simpa using h

/- ### Claim C4 - deterministic sub-sampling -/

/-- The rounded quotient `roundNearestEven a b` is within `1/2` of the
exact quotient `a / b`. -/
theorem roundNearestEven_near (a b : ℕ) (hb : 0 < b) :
    |(roundNearestEven a b : ℚ) - (a : ℚ) / b| ≤ 1 / 2 := by
  have hbq : (0 : ℚ) < (b : ℚ) := by exact_mod_cast hb
  have key : ((b : ℚ)) * ((a / b : ℕ) : ℚ) + ((a % b : ℕ) : ℚ) = (a : ℚ) := by
    exact_mod_cast congrArg (fun k : ℕ => (k : ℚ)) (Nat.div_add_mod a b)
  have hsplit : (a : ℚ) / b = ((a / b : ℕ) : ℚ) + ((a % b : ℕ) : ℚ) / b := by
    field_simp
    linarith [key]
  have hrlt : a % b < b := Nat.mod_lt a hb
  have hrq : ((a % b : ℕ) : ℚ) < b := by exact_mod_cast hrlt
  have hr0 : (0 : ℚ) ≤ ((a % b : ℕ) : ℚ) := by positivity
  rw [roundNearestEven]
  split_ifs with h1 h2 h3
  · have h1q : 2 * ((a % b : ℕ) : ℚ) < b := by exact_mod_cast h1
    have hle : ((a % b : ℕ) : ℚ) / b ≤ 1 / 2 := by
      rw [div_le_div_iff₀ hbq (by norm_num)]
      linarith
    rw [hsplit, abs_le]
    constructor <;> [skip; skip] <;>
      · have := div_nonneg hr0 hbq.le
        linarith
  · have h2q : (b : ℚ) < 2 * ((a % b : ℕ) : ℚ) := by exact_mod_cast h2
    have hge : 1 / 2 ≤ ((a % b : ℕ) : ℚ) / b := by
      rw [div_le_div_iff₀ (by norm_num) hbq]
      linarith
    have hle1 : ((a % b : ℕ) : ℚ) / b ≤ 1 := by
      rw [div_le_one hbq]
      linarith
    rw [hsplit, abs_le]
    push_cast
    constructor <;> linarith
  · have h3q : 2 * ((a % b : ℕ) : ℚ) = b := by
      have : 2 * (a % b) = b := by omega
      exact_mod_cast this
    have heq : ((a % b : ℕ) : ℚ) / b = 1 / 2 := by
      rw [div_eq_div_iff hbq.ne' (by norm_num : (2:ℚ) ≠ 0)]
      linarith
    rw [hsplit, heq, abs_le]
    constructor <;> linarith
  · have h3q : 2 * ((a % b : ℕ) : ℚ) = b := by
      have : 2 * (a % b) = b := by omega
      exact_mod_cast this
    have heq : ((a % b : ℕ) : ℚ) / b = 1 / 2 := by
      rw [div_eq_div_iff hbq.ne' (by norm_num : (2:ℚ) ≠ 0)]
      linarith
    rw [hsplit, heq, abs_le]
    push_cast
    constructor <;> linarith

/-- Binary64 rounding never produces a negative value. -/
theorem f64Round_nonneg (x : ℚ) : 0 ≤ f64Round x := by
  rw [f64Round]
  split_ifs with h1 h2 h3
  · exact le_refl 0
  · exact le_of_lt (lt_of_not_le h1)
  · positivity
  · positivity

/-- For `x ≥ 1`, `x` is the quotient of its numerator and denominator and
the numerator dominates the denominator. -/
theorem f64Round_num_den (x : ℚ) (hx : 1 ≤ x) :
    ((x.num.toNat : ℕ) : ℚ) / (x.den : ℚ) = x ∧ x.den ≤ x.num.toNat := by
  have hnum : 0 < x.num := Rat.num_pos.mpr (lt_of_lt_of_le one_pos hx)
  have hcast : ((x.num.toNat : ℕ) : ℚ) = ((x.num : ℤ) : ℚ) := by
    exact_mod_cast congrArg (fun z : ℤ => (z : ℚ)) (Int.toNat_of_nonneg hnum.le)
  have hxab : ((x.num.toNat : ℕ) : ℚ) / (x.den : ℚ) = x := by
    rw [hcast]
    exact Rat.num_div_den x
  refine ⟨hxab, ?_⟩
  have hbq : (0 : ℚ) < (x.den : ℚ) := by exact_mod_cast x.pos
  have : (x.den : ℚ) ≤ ((x.num.toNat : ℕ) : ℚ) := by
    rw [← hxab] at hx
    calc (x.den : ℚ) = 1 * x.den := (one_mul _).symm
      _ ≤ (((x.num.toNat : ℕ) : ℚ) / x.den) * x.den := by
          exact mul_le_mul_of_nonneg_right hx hbq.le
      _ = ((x.num.toNat : ℕ) : ℚ) := by field_simp
  exact_mod_cast this

/-- The power of two selected by the exponent computation of `f64Round`
bounds `x` from below. -/
theorem f64Round_pow_le (x : ℚ) (hx : 1 ≤ x) :
    (2 : ℚ) ^ Nat.log2 (x.num.toNat / x.den) ≤ x := by
  obtain ⟨hxab, hba⟩ := f64Round_num_den x hx
  have hb : 0 < x.den := x.pos
  have hk1 : 1 ≤ x.num.toNat / x.den := (Nat.one_le_div_iff hb).mpr hba
  have hlog := Nat.log2_self_le (Nat.one_le_iff_ne_zero.mp hk1)
  calc (2 : ℚ) ^ Nat.log2 (x.num.toNat / x.den)
      = ((2 ^ Nat.log2 (x.num.toNat / x.den) : ℕ) : ℚ) := by push_cast; ring
    _ ≤ ((x.num.toNat / x.den : ℕ) : ℚ) := by exact_mod_cast hlog
    _ ≤ ((x.num.toNat : ℕ) : ℚ) / (x.den : ℚ) := Nat.cast_div_le
    _ = x := hxab

/-- Evaluation rule for `f64Round`: if the integer `m` is within `1/2` of
the scaled significand `x * 2^(52-e)` then the rounded value is
`m / 2^(52-e)`.  Strictness of the bound rules out ties, so this decides
every concrete rounding used below. -/
theorem f64Round_eq_near (x : ℚ) (e m : ℕ) (hx : 1 ≤ x) (he52 : e ≤ 52)
    (h1 : (2 : ℚ) ^ e ≤ x) (h2 : x < 2 ^ (e + 1))
    (hm : |(m : ℚ) - x * 2 ^ (52 - e)| < 1 / 2) :
    f64Round x = (m : ℚ) / 2 ^ (52 - e) := by
  obtain ⟨hxab, hba⟩ := f64Round_num_den x hx
  have hb : 0 < x.den := x.pos
  have hbq : (0 : ℚ) < (x.den : ℚ) := by exact_mod_cast hb
  have hx0 : ¬ x ≤ 0 := not_le.mpr (lt_of_lt_of_le one_pos hx)
  have hx1 : ¬ x < 1 := not_lt.mpr hx
  have hab1 : 2 ^ e * x.den ≤ x.num.toNat := by
    have : (2 : ℚ) ^ e * x.den ≤ ((x.num.toNat : ℕ) : ℚ) := by
      rw [← hxab] at h1
      calc (2 : ℚ) ^ e * x.den ≤ (((x.num.toNat : ℕ) : ℚ) / x.den) * x.den := by
            exact mul_le_mul_of_nonneg_right h1 hbq.le
        _ = ((x.num.toNat : ℕ) : ℚ) := by field_simp
    exact_mod_cast this
  have hab2 : x.num.toNat < 2 ^ (e + 1) * x.den := by
    have : ((x.num.toNat : ℕ) : ℚ) < 2 ^ (e + 1) * x.den := by
      rw [← hxab] at h2
      calc ((x.num.toNat : ℕ) : ℚ) = (((x.num.toNat : ℕ) : ℚ) / x.den) * x.den := by
            field_simp
        _ < 2 ^ (e + 1) * x.den := by
            exact mul_lt_mul_of_pos_right h2 hbq
    exact_mod_cast this
  have hk1 : 2 ^ e ≤ x.num.toNat / x.den := (Nat.le_div_iff_mul_le hb).mpr hab1
  have hk2 : x.num.toNat / x.den < 2 ^ (e + 1) := (Nat.div_lt_iff_lt_mul hb).mpr hab2
  have hlog : Nat.log2 (x.num.toNat / x.den) = e := by
    have hne : x.num.toNat / x.den ≠ 0 := by
      have : (0 : ℕ) < 2 ^ e := Nat.pos_pow_of_pos e (by norm_num)
      omega
    have hs1 := Nat.log2_self_le hne
    have hs2 : x.num.toNat / x.den < 2 ^ (Nat.log2 (x.num.toNat / x.den) + 1) :=
      Nat.lt_log2_self
    rcases Nat.lt_trichotomy (Nat.log2 (x.num.toNat / x.den)) e with hlt | heq | hgt
    · exfalso
      have hm1 : (2 : ℕ) ^ (Nat.log2 (x.num.toNat / x.den) + 1) ≤ 2 ^ e :=
        Nat.pow_le_pow_right (by norm_num) (by omega)
      omega
    · exact heq
    · exfalso
      have hm1 : (2 : ℕ) ^ (e + 1) ≤ 2 ^ Nat.log2 (x.num.toNat / x.den) :=
        Nat.pow_le_pow_right (by norm_num) (by omega)
      omega
  rw [f64Round, if_neg hx0, if_neg hx1, hlog, if_pos he52]
  have hnear := roundNearestEven_near (x.num.toNat * 2 ^ (52 - e)) x.den hb
  have hval : ((x.num.toNat * 2 ^ (52 - e) : ℕ) : ℚ) / x.den = x * 2 ^ (52 - e) := by
    push_cast
    rw [mul_div_right_comm, hxab]
  rw [hval] at hnear
  have hRm : roundNearestEven (x.num.toNat * 2 ^ (52 - e)) x.den = m := by
    have h3 : |(roundNearestEven (x.num.toNat * 2 ^ (52 - e)) x.den : ℚ) - m| < 1 := by
      have hm' : |x * 2 ^ (52 - e) - (m : ℚ)| < 1 / 2 := by rwa [abs_sub_comm] at hm
      calc |(roundNearestEven (x.num.toNat * 2 ^ (52 - e)) x.den : ℚ) - m|
          ≤ |(roundNearestEven (x.num.toNat * 2 ^ (52 - e)) x.den : ℚ) - x * 2 ^ (52 - e)|
            + |x * 2 ^ (52 - e) - (m : ℚ)| := abs_sub_le _ _ _
        _ < 1 / 2 + 1 / 2 := by
            exact add_lt_add_of_le_of_lt hnear hm'
        _ = 1 := by norm_num
    have h4 : ((roundNearestEven (x.num.toNat * 2 ^ (52 - e)) x.den : ℤ) - (m : ℤ)) = 0 := by
      by_contra hne
      have h5 : (1 : ℚ) ≤ |(roundNearestEven (x.num.toNat * 2 ^ (52 - e)) x.den : ℚ) - m| := by
        have h6 : (1 : ℤ) ≤ |(roundNearestEven (x.num.toNat * 2 ^ (52 - e)) x.den : ℤ) - m| :=
          Int.one_le_abs hne
        have h7 : ((|(roundNearestEven (x.num.toNat * 2 ^ (52 - e)) x.den : ℤ) - (m : ℤ)| : ℤ) : ℚ)
            = |(roundNearestEven (x.num.toNat * 2 ^ (52 - e)) x.den : ℚ) - m| := by
          rw [Int.cast_abs]
          push_cast
          ring_nf
        rw [← h7]
        exact_mod_cast h6
      linarith
    have : (roundNearestEven (x.num.toNat * 2 ^ (52 - e)) x.den : ℤ) = m := by omega
    exact_mod_cast this
  rw [hRm]

/-- Binary64 rounding of a non-negative value overshoots by at most one
part in `2^53` (half an ulp). -/
theorem f64Round_le (x : ℚ) (hx : 0 ≤ x) : f64Round x ≤ x * (1 + 1 / 2 ^ 53) := by
  rcases le_or_lt x 0 with h0 | h0
  · have hx0 : x = 0 := le_antisymm h0 hx
    rw [f64Round, if_pos h0, hx0]
    norm_num
  rcases lt_or_le x 1 with h1 | h1
  · rw [f64Round, if_neg (not_le.mpr h0), if_pos h1]
    have hh : 0 ≤ x * (1 / 2 ^ 53) := mul_nonneg hx (by norm_num)
    nlinarith
  obtain ⟨hxab, hba⟩ := f64Round_num_den x h1
  have hb : 0 < x.den := x.pos
  have h2e := f64Round_pow_le x h1
  rcases le_or_lt (Nat.log2 (x.num.toNat / x.den)) 52 with hle | hlt
  · rw [f64Round, if_neg (not_le.mpr h0), if_neg (not_lt.mpr h1), if_pos hle]
    set e := Nat.log2 (x.num.toNat / x.den) with he
    have hnear := roundNearestEven_near (x.num.toNat * 2 ^ (52 - e)) x.den hb
    have hval : ((x.num.toNat * 2 ^ (52 - e) : ℕ) : ℚ) / x.den = x * 2 ^ (52 - e) := by
      push_cast
      rw [mul_div_right_comm, hxab]
    rw [hval] at hnear
    have hpos : (0 : ℚ) < 2 ^ (52 - e) := by positivity
    have hRa : (roundNearestEven (x.num.toNat * 2 ^ (52 - e)) x.den : ℚ)
        ≤ x * 2 ^ (52 - e) + 1 / 2 := by
      have := (abs_le.mp hnear).2
      linarith
    have hpow : (2 : ℚ) ^ e * 2 ^ (52 - e) = 2 ^ 52 := by
      rw [← pow_add]
      congr 1
      omega
    have h52 : (2 : ℚ) ^ 52 ≤ x * 2 ^ (52 - e) := by
      calc (2 : ℚ) ^ 52 = 2 ^ e * 2 ^ (52 - e) := hpow.symm
        _ ≤ x * 2 ^ (52 - e) := mul_le_mul_of_nonneg_right h2e hpos.le
    rw [div_le_iff₀ hpos]
    nlinarith [hRa, h52]
  · rw [f64Round, if_neg (not_le.mpr h0), if_neg (not_lt.mpr h1), if_neg (not_le.mpr hlt)]
    set e := Nat.log2 (x.num.toNat / x.den) with he
    have hbt : 0 < x.den * 2 ^ (e - 52) := by positivity
    have hnear := roundNearestEven_near x.num.toNat (x.den * 2 ^ (e - 52)) hbt
    have hval : ((x.num.toNat : ℕ) : ℚ) / ((x.den * 2 ^ (e - 52) : ℕ) : ℚ)
        = x / 2 ^ (e - 52) := by
      push_cast
      rw [div_mul_eq_div_div, hxab]
    rw [hval] at hnear
    have hpos : (0 : ℚ) < 2 ^ (e - 52) := by positivity
    have hRa : (roundNearestEven x.num.toNat (x.den * 2 ^ (e - 52)) : ℚ)
        ≤ x / 2 ^ (e - 52) + 1 / 2 := by
      have := (abs_le.mp hnear).2
      linarith
    have hpow : (2 : ℚ) ^ 53 * 2 ^ (e - 52) = 2 * 2 ^ e := by
      rw [← pow_add, ← pow_succ']
      congr 1
      omega
    have hhalf : (2 : ℚ) ^ (e - 52) / 2 ≤ x / 2 ^ 53 := by
      rw [div_le_div_iff₀ (by norm_num) (by positivity)]
      calc (2 : ℚ) ^ (e - 52) * 2 ^ 53 = 2 ^ 53 * 2 ^ (e - 52) := mul_comm _ _
        _ = 2 * 2 ^ e := hpow
        _ ≤ 2 * x := by linarith
        _ = x * 2 := mul_comm _ _
    calc (roundNearestEven x.num.toNat (x.den * 2 ^ (e - 52)) : ℚ) * 2 ^ (e - 52)
        ≤ (x / 2 ^ (e - 52) + 1 / 2) * 2 ^ (e - 52) :=
          mul_le_mul_of_nonneg_right hRa hpos.le
      _ = x + 2 ^ (e - 52) / 2 := by
          rw [add_mul, div_mul_cancel₀ _ (ne_of_gt hpos)]
          ring
      _ ≤ x + x / 2 ^ 53 := by linarith
      _ = x * (1 + 1 / 2 ^ 53) := by ring

/-- The divisor `float64(1000)` of the sampling step is exact. -/
theorem f64Round_thousand : f64Round ((1000 : ℕ) : ℚ) = 1000 := by
  have h := f64Round_eq_near ((1000 : ℕ) : ℚ) 9 (1000 * 2 ^ 43)
    (by norm_num) (by norm_num) (by norm_num) (by norm_num)
    (by push_cast; norm_num)
  rw [h]
  push_cast
  norm_num

/-- With a budget of 1000 the float64-computed sampling index stays below
the list length: the relative rounding error of the three rounded
operations is far too small to push `int(float64(i) * step)` past `n - 1`,
so the Go slice access cannot panic. -/
theorem sampleIdx_lt (n i : ℕ) (hn : 1000 < n) (hi : i < 1000) :
    sampleIdx n 1000 i < n := by
  have hq53 : (0 : ℚ) < 1 + 1 / 2 ^ 53 := by norm_num
  have hfn : f64Round ((n : ℕ) : ℚ) ≤ (n : ℚ) * (1 + 1 / 2 ^ 53) :=
    f64Round_le _ (by positivity)
  have hfn0 : 0 ≤ f64Round ((n : ℕ) : ℚ) := f64Round_nonneg _
  have hstep_def : sampleStep n 1000 = f64Round (f64Round ((n : ℕ) : ℚ) / 1000) := by
    rw [sampleStep, f64Round_thousand]
  have hstep0 : 0 ≤ sampleStep n 1000 := by
    rw [sampleStep]
    exact f64Round_nonneg _
  have hstep_le : sampleStep n 1000 ≤ (n : ℚ) / 1000 * (1 + 1 / 2 ^ 53) ^ 2 := by
    rw [hstep_def]
    calc f64Round (f64Round ((n : ℕ) : ℚ) / 1000)
        ≤ (f64Round ((n : ℕ) : ℚ) / 1000) * (1 + 1 / 2 ^ 53) :=
          f64Round_le _ (by positivity)
      _ ≤ ((n : ℚ) * (1 + 1 / 2 ^ 53) / 1000) * (1 + 1 / 2 ^ 53) := by gcongr
      _ = (n : ℚ) / 1000 * (1 + 1 / 2 ^ 53) ^ 2 := by ring
  have hfi : f64Round ((i : ℕ) : ℚ) ≤ (i : ℚ) * (1 + 1 / 2 ^ 53) :=
    f64Round_le _ (by positivity)
  have hfi0 : 0 ≤ f64Round ((i : ℕ) : ℚ) := f64Round_nonneg _
  have hprod : f64Round (f64Round ((i : ℕ) : ℚ) * sampleStep n 1000)
      ≤ (i : ℚ) * ((n : ℚ) / 1000) * (1 + 1 / 2 ^ 53) ^ 4 := by
    calc f64Round (f64Round ((i : ℕ) : ℚ) * sampleStep n 1000)
        ≤ (f64Round ((i : ℕ) : ℚ) * sampleStep n 1000) * (1 + 1 / 2 ^ 53) :=
          f64Round_le _ (mul_nonneg hfi0 hstep0)
      _ ≤ (((i : ℚ) * (1 + 1 / 2 ^ 53)) * ((n : ℚ) / 1000 * (1 + 1 / 2 ^ 53) ^ 2))
            * (1 + 1 / 2 ^ 53) := by
          have hmul : f64Round ((i : ℕ) : ℚ) * sampleStep n 1000
              ≤ ((i : ℚ) * (1 + 1 / 2 ^ 53)) * ((n : ℚ) / 1000 * (1 + 1 / 2 ^ 53) ^ 2) :=
            mul_le_mul hfi hstep_le hstep0 (by positivity)
          exact mul_le_mul_of_nonneg_right hmul hq53.le
      _ = (i : ℚ) * ((n : ℚ) / 1000) * (1 + 1 / 2 ^ 53) ^ 4 := by ring
  have hn0 : (0 : ℚ) < (n : ℚ) := by
    have hn' : 0 < n := by omega
    exact_mod_cast hn'
  have hi999 : (i : ℚ) ≤ 999 := by
    have hi' : i ≤ 999 := by omega
    exact_mod_cast hi'
  have hfinal : (i : ℚ) * ((n : ℚ) / 1000) * (1 + 1 / 2 ^ 53) ^ 4 < (n : ℚ) := by
    have hc : (999 : ℚ) * (1 + 1 / 2 ^ 53) ^ 4 < 1000 := by norm_num
    calc (i : ℚ) * ((n : ℚ) / 1000) * (1 + 1 / 2 ^ 53) ^ 4
        ≤ 999 * ((n : ℚ) / 1000) * (1 + 1 / 2 ^ 53) ^ 4 := by gcongr
      _ = (999 * (1 + 1 / 2 ^ 53) ^ 4) * ((n : ℚ) / 1000) := by ring
      _ < 1000 * ((n : ℚ) / 1000) :=
          mul_lt_mul_of_pos_right hc (div_pos hn0 (by norm_num))
      _ = (n : ℚ) := by field_simp
  have hq0 : 0 ≤ f64Round (f64Round ((i : ℕ) : ℚ) * sampleStep n 1000) := f64Round_nonneg _
  rw [sampleIdx, ratTrunc, if_pos hq0]
  have hfl : ⌊f64Round (f64Round ((i : ℕ) : ℚ) * sampleStep n 1000)⌋ < (n : ℤ) := by
    rw [Int.floor_lt]
    push_cast
    exact lt_of_le_of_lt hprod hfinal
  have hfl0 : 0 ≤ ⌊f64Round (f64Round ((i : ℕ) : ℚ) * sampleStep n 1000)⌋ :=
    Int.floor_nonneg.mpr hq0
  omega

/-- Claim C4, amended: when a project has more than 1000 statements the
sampler returns exactly 1000 entries; the `i`-th is the statement at the
float64-computed index `int(float64(i) * (float64(n) / 1000.0))`, which
always lies inside the statement list (no panic) but is not in general
`floor(i * n / 1000)`. -/
theorem sampleStatements_float_indices (l : List Nat) (h : 1000 < l.length) :
    (sampleStatements l maxVisualizationPoints).length = 1000 ∧
    ∀ i : ℕ, i < 1000 →
      sampleIdx l.length 1000 i < l.length ∧
      (sampleStatements l maxVisualizationPoints).get? i =
        l.get? (sampleIdx l.length 1000 i) := by
  have hno : ¬ l.length ≤ maxVisualizationPoints := by
    simpa [maxVisualizationPoints] using Nat.not_le.mpr h
  have hmain : sampleStatements l maxVisualizationPoints =
      (List.range 1000).map
        (fun (i : ℕ) => l.getD (sampleIdx l.length 1000 i) default) := by
    unfold sampleStatements
    rw [if_neg hno]
    rfl
  constructor
  · rw [hmain, List.length_map, List.length_range]
  · intro i hi
    have hidx := sampleIdx_lt l.length i h hi
    refine ⟨hidx, ?_⟩
    rw [hmain, List.get?_eq_getElem?, List.getElem?_map, List.getElem?_range hi,
      Option.map_some']
    rw [List.get?_eq_getElem?, List.getD_eq_getElem?_getD,
      List.getElem?_eq_getElem hidx]
    rfl

/-- Witness for the amended C4 on a 1001-element list. -/
theorem sampleStatements_float_indices_witness :
    1000 < (List.range 1001).length ∧
    ((sampleStatements (List.range 1001) maxVisualizationPoints).length = 1000 ∧
     ∀ i : ℕ, i < 1000 →
       sampleIdx (List.range 1001).length 1000 i < (List.range 1001).length ∧
       (sampleStatements (List.range 1001) maxVisualizationPoints).get? i =
         (List.range 1001).get? (sampleIdx (List.range 1001).length 1000 i)) :=
  ⟨by simp, sampleStatements_float_indices (List.range 1001) (by simp)⟩

/-- Counterexample to claim C4: for 1005 statements the 200th sampled
entry is the statement at source index `200`, not at
`floor(200 * 1005 / 1000) = 201`.  In binary64,
`step = float64(1005) / float64(1000)` rounds below `1.005`, and
`200 * step = 200.99999999999997` truncates to `200`. -/
theorem sampleStatements_not_floor_counterexample :
    1000 < (List.range 1005).length ∧
    200 * (List.range 1005).length / 1000 = 201 ∧
    (sampleStatements (List.range 1005) maxVisualizationPoints).get? 200 = some 200 ∧
    (200 : ℕ) ≠ 201 := by
  have hn1005 : f64Round ((1005 : ℕ) : ℚ) = 1005 := by
    have h := f64Round_eq_near ((1005 : ℕ) : ℚ) 9 (1005 * 2 ^ 43)
      (by norm_num) (by norm_num) (by norm_num) (by norm_num)
      (by push_cast; norm_num)
    rw [h]
    push_cast
    norm_num
  have hstepv : f64Round ((1005 : ℚ) / 1000) = 4526117625507348 / 2 ^ 52 := by
    have h := f64Round_eq_near ((1005 : ℚ) / 1000) 0 4526117625507348
      (by norm_num) (by norm_num) (by norm_num) (by norm_num)
      (by rw [abs_lt]; constructor <;> norm_num)
    rw [h]
    norm_num
  have hstep : sampleStep 1005 1000 = 4526117625507348 / 2 ^ 52 := by
    rw [sampleStep, f64Round_thousand, hn1005, hstepv]
  have hfi200 : f64Round ((200 : ℕ) : ℚ) = 200 := by
    have h := f64Round_eq_near ((200 : ℕ) : ℚ) 7 (200 * 2 ^ 45)
      (by norm_num) (by norm_num) (by norm_num) (by norm_num)
      (by push_cast; norm_num)
    rw [h]
    push_cast
    norm_num
  have hprod : f64Round ((200 : ℚ) * (4526117625507348 / 2 ^ 52))
      = 7072058789855231 / 2 ^ 45 := by
    have h := f64Round_eq_near ((200 : ℚ) * (4526117625507348 / 2 ^ 52)) 7
      7072058789855231
      (by norm_num) (by norm_num) (by norm_num) (by norm_num)
      (by rw [abs_lt]; constructor <;> norm_num)
    rw [h]
    push_cast
    norm_num
  have hfloor : ⌊(7072058789855231 / 2 ^ 45 : ℚ)⌋ = 200 := by
    rw [Int.floor_eq_iff]
    constructor
    · push_cast
      norm_num
    · push_cast
      norm_num
  have hidx : sampleIdx 1005 1000 200 = 200 := by
    rw [sampleIdx, hfi200, hstep, hprod, ratTrunc, if_pos (by norm_num : (0 : ℚ) ≤ _),
      hfloor]
    rfl
  have hno : ¬ (List.range 1005).length ≤ maxVisualizationPoints := by
    simp [maxVisualizationPoints]
  have hmain : sampleStatements (List.range 1005) maxVisualizationPoints =
      (List.range 1000).map (fun (i : ℕ) =>
        (List.range 1005).getD (sampleIdx (List.range 1005).length 1000 i) default) := by
    unfold sampleStatements
    rw [if_neg hno]
    rfl
  refine ⟨by simp, by simp, ?_, by norm_num⟩
  rw [hmain, List.get?_eq_getElem?, List.getElem?_map,
    List.getElem?_range (by norm_num : (200 : ℕ) < 1000), Option.map_some',
    List.length_range, hidx, List.getD_eq_getElem?_getD,
    List.getElem?_range (by norm_num : (200 : ℕ) < 1005)]
  rfl

/- ### Claim C6 - elbow selection -/

/-- The Newton iteration keeps positive iterates positive for positive
input. -/
theorem sqrtLoop_pos (x : ℚ) (hx : 0 < x) :
    ∀ n z, 0 < z → 0 < sqrtLoop n x z := by
  intro n
  induction n with
  | zero =>
    intro z hz
    simpa [sqrtLoop] using hz
  | succ n ih =>
    intro z hz
    have hstep : z - (z * z - x) / (2 * z) = (z * z + x) / (2 * z) := by
      field_simp
      ring
    rw [sqrtLoop, hstep]
    exact ih _ (by positivity)

/-- The normalizing denominator of the elbow distance is positive. -/
theorem elbowDen_pos : 0 < elbowDen := by
  have h2 : ((0 - 1) * (0 - 1) + (1 - 0) * (1 - 0) : ℚ) = 2 := by norm_num
  rw [elbowDen, h2, newtonSqrt, if_neg (by norm_num)]
  exact sqrtLoop_pos 2 (by norm_num) 10 2 (by norm_num)

/-- Claim C6: on the inertia curve `[100, 50, 20, 18, 17, 16.5]` the elbow
selector returns `k = 3`, and on any curve of at most two points it returns
the curve's length. -/
theorem findElbow_concrete_and_short (inertias : List ℚ)
    (h : inertias.length ≤ 2) :
    findElbow [100, 50, 20, 18, 17, 33 / 2] = 3 ∧
    findElbow inertias = inertias.length := by
  refine ⟨?_, by unfold findElbow; rw [if_pos h]⟩
  have hden := elbowDen_pos
  have e1 : elbowNum [100, 50, 20, 18, 17, 33 / 2] 6 1 = 333 / 835 := by
    norm_num [elbowNum, absQ]
  have e2 : elbowNum [100, 50, 20, 18, 17, 33 / 2] 6 2 = 466 / 835 := by
    norm_num [elbowNum, absQ]
  have e3 : elbowNum [100, 50, 20, 18, 17, 33 / 2] 6 3 = 319 / 835 := by
    norm_num [elbowNum, absQ]
  have e4 : elbowNum [100, 50, 20, 18, 17, 33 / 2] 6 4 = 162 / 835 := by
    norm_num [elbowNum, absQ]
  have s1 : elbowStep [100, 50, 20, 18, 17, 33 / 2] 6 (0, 1) 1 =
      (333 / 835 / elbowDen, 2) := by
    simp only [elbowStep, e1]
    rw [if_pos (div_pos (by norm_num) hden)]
  have s2 : elbowStep [100, 50, 20, 18, 17, 33 / 2] 6
      (333 / 835 / elbowDen, 2) 2 = (466 / 835 / elbowDen, 3) := by
    simp only [elbowStep, e2]
    rw [if_pos ((div_lt_div_iff_of_pos_right hden).mpr (by norm_num))]
  have s3 : elbowStep [100, 50, 20, 18, 17, 33 / 2] 6
      (466 / 835 / elbowDen, 3) 3 = (466 / 835 / elbowDen, 3) := by
    simp only [elbowStep, e3]
    rw [if_neg (fun hc =>
      absurd ((div_lt_div_iff_of_pos_right hden).mp hc) (by norm_num))]
  have s4 : elbowStep [100, 50, 20, 18, 17, 33 / 2] 6
      (466 / 835 / elbowDen, 3) 4 = (466 / 835 / elbowDen, 3) := by
    simp only [elbowStep, e4]
    rw [if_neg (fun hc =>
      absurd ((div_lt_div_iff_of_pos_right hden).mp hc) (by norm_num))]
  unfold findElbow
  rw [if_neg (by norm_num)]
  show (List.foldl
      (elbowStep [100, 50, 20, 18, 17, 33 / 2]
        ([100, 50, 20, 18, 17, 33 / 2] : List ℚ).length)
      (0, 1)
      (List.range' 1 (([100, 50, 20, 18, 17, 33 / 2] : List ℚ).length - 2))).2 = 3
  have hlen : ([100, 50, 20, 18, 17, 33 / 2] : List ℚ).length = 6 := by
    simp
  rw [hlen]
  have hrange : List.range' 1 (6 - 2) = [1, 2, 3, 4] := rfl
  rw [hrange]
  simp only [List.foldl_cons, List.foldl_nil]
  rw [s1, s2, s3, s4]

/-- Witness for C6 on a one-point curve. -/
theorem findElbow_concrete_and_short_witness :
    ([(5 : ℚ)] : List ℚ).length ≤ 2 ∧ findElbow [(5 : ℚ)] = [(5 : ℚ)].length :=
  ⟨by decide, (findElbow_concrete_and_short [(5 : ℚ)] (by decide)).2⟩

/- ### Claim C8 - deterministic k-means -/

/-- Claim C8: the k-means fit is a deterministic function of its input
across runs.  The first conjunct states that the labels are independent of
the process-global random state (two runs in processes with different
global sources agree); the second that a fit immediately repeated in the
same process (in whatever state the first fit left it) returns identical
labels; the third that `computeDataSeed`, the seed of the fit's private
source, depends only on the data's length, dimensionality and three sampled
leading coordinates. -/
theorem kmeans_fit_deterministic (E : List (List ℚ)) (k : Nat)
    (g₁ g₂ : GoRand) (d₁ d₂ : List (List ℚ))
    (hobs : seedObservations d₁ = seedObservations d₂) :
    (kMeansFitS E k g₁).1 = (kMeansFitS E k g₂).1 ∧
    (kMeansFitS E k (kMeansFitS E k g₁).2).1 = (kMeansFitS E k g₁).1 ∧
    computeDataSeed d₁ = computeDataSeed d₂ := by
  refine ⟨rfl, rfl, ?_⟩
  unfold seedObservations at hobs
  rw [Prod.ext_iff, Prod.ext_iff, Prod.ext_iff, Prod.ext_iff] at hobs
  obtain ⟨hl, hd, h0, hm, hlast⟩ := hobs
  simp only at hl hd h0 hm hlast
  unfold computeDataSeed
  rw [h0, hm, hlast, hd, hl]

/- ### Claim C10 - embedding batch write-back -/

/-- Counterexample to claim C10: a parsed 2xx response carrying the single
entry `(index = -1, embedding = [1])` for a one-text batch is not silently
dropped - the write `embeddings[-1] = …` panics (the model returns `none`),
so `EmbedTexts` does not succeed. -/
theorem embedBatch_negative_index_counterexample :
    embedBatchWriteback ["a"] [EmbEntry.mk (-1) [1]] = none := by
  decide

/-- A left fold that overwrites an accumulator whenever a predicate holds
computes the last matching write. -/
theorem foldl_lastwrite {α β : Type} (f : α → β) (p : α → Prop)
    [DecidablePred p] :
    ∀ (l : List α) (init : Option β),
      l.foldl (fun v a => if p a then some (f a) else v) init =
        (((l.filter (fun a => decide (p a))).map f).getLast?).elim init some := by
  intro l
  induction l with
  | nil =>
    intro init
    simp
  | cons a l ih =>
    intro init
    by_cases hp : p a
    · rw [List.foldl_cons, if_pos hp,
        List.filter_cons_of_pos (by simpa using hp), List.map_cons, ih,
        List.getLast?_cons]
      cases ((l.filter (fun a => decide (p a))).map f).getLast? with
      | none => rfl
      | some v => rfl
    · rw [List.foldl_cons, if_neg hp,
        List.filter_cons_of_neg (by simpa using hp), ih]

/-- For entries with non-negative indices the write-back loop of
`embedBatch` never panics, and each slot holds the last write to it
(`none`, a nil vector, when no entry covers it). -/
theorem writeback_fold (texts : List String) :
    ∀ (entries : List EmbEntry) (s : List (Option Vec)),
      (∀ e ∈ entries, 0 ≤ e.index) → s.length = texts.length →
      ∃ t, entries.foldl
          (fun acc e =>
            acc.bind (fun slots =>
              if e.index < (texts.length : Int) then
                if e.index < 0 then none
                else some (slots.set e.index.toNat (some e.embedding))
              else some slots))
          (some s) = some t ∧
        t.length = s.length ∧
        ∀ i, i < texts.length →
          t.getD i none = entries.foldl
            (fun v e => if e.index = (i : Int) then some e.embedding else v)
            (s.getD i none) := by
  intro entries
  induction entries with
  | nil =>
    intro s _ _
    exact ⟨s, rfl, rfl, fun i _ => rfl⟩
  | cons e es ih =>
    intro s hnn hs
    have h0 : 0 ≤ e.index := hnn e (List.mem_cons_self e es)
    have hes : ∀ x ∈ es, 0 ≤ x.index := fun x hx => hnn x (List.mem_cons_of_mem e hx)
    by_cases hin : e.index < (texts.length : Int)
    · have hstep : (some s).bind (fun slots =>
          if e.index < (texts.length : Int) then
            if e.index < 0 then none
            else some (slots.set e.index.toNat (some e.embedding))
          else some slots) = some (s.set e.index.toNat (some e.embedding)) := by
        simp only [Option.some_bind]
        rw [if_pos hin, if_neg (not_lt.mpr h0)]
      have hlen : (s.set e.index.toNat (some e.embedding)).length = texts.length := by
        rw [List.length_set, hs]
      obtain ⟨t, ht, htlen, hslot⟩ := ih (s.set e.index.toNat (some e.embedding))
        hes hlen
      refine ⟨t, ?_, ?_, ?_⟩
      · rw [List.foldl_cons, hstep, ht]
      · rw [htlen, List.length_set]
      · intro i hi
        rw [List.foldl_cons, hslot i hi]
        by_cases hie : e.index = (i : Int)
        · rw [if_pos hie]
          have hieq : e.index.toNat = i := by omega
          have : (s.set e.index.toNat (some e.embedding)).getD i none =
              some e.embedding := by
            rw [hieq, List.getD_eq_getElem?_getD,
              List.getElem?_set_self (by omega : i < s.length)]
            rfl
          rw [this]
        · rw [if_neg hie]
          have hne : e.index.toNat ≠ i := by omega
          rw [List.getD_eq_getElem?_getD, List.getElem?_set_ne hne,
            ← List.getD_eq_getElem?_getD]
    · have hstep : (some s).bind (fun slots =>
          if e.index < (texts.length : Int) then
            if e.index < 0 then none
            else some (slots.set e.index.toNat (some e.embedding))
          else some slots) = some s := by
        simp only [Option.some_bind]
        rw [if_neg hin]
      obtain ⟨t, ht, htlen, hslot⟩ := ih s hes hs
      refine ⟨t, ?_, htlen, ?_⟩
      · rw [List.foldl_cons, hstep, ht]
      · intro i hi
        rw [List.foldl_cons, hslot i hi]
        have hie : e.index ≠ (i : Int) := by omega
        rw [if_neg hie]

/-- Claim C10, amended: on a parsed 2xx response all of whose entries carry
non-negative indices, `embedBatch`'s write-back succeeds; entries with an
index at or beyond the batch length are silently dropped, inputs not covered
by any entry remain nil vectors, and each covered slot holds its last
matching entry.  (An entry with a negative index instead panics, per the
counterexample.) -/
theorem embedBatch_nonneg_writeback (texts : List String)
    (entries : List EmbEntry) (hnn : ∀ e ∈ entries, 0 ≤ e.index) :
    ∃ slots, embedBatchWriteback texts entries = some slots ∧
      slots.length = texts.length ∧
      ∀ i, i < texts.length →
        slots.getD i none =
          ((entries.filter (fun e => e.index = (i : Int))).map
            (fun e => e.embedding)).getLast? := by
  obtain ⟨t, ht, htlen, hslot⟩ := writeback_fold texts entries
    (List.replicate texts.length (none : Option Vec)) hnn
    (List.length_replicate _ _)
  refine ⟨t, ?_, by rw [htlen, List.length_replicate], ?_⟩
  · unfold embedBatchWriteback
    exact ht
  · intro i hi
    rw [hslot i hi,
      foldl_lastwrite (fun e : EmbEntry => e.embedding)
        (fun e => e.index = (i : Int))]
    have hrep : (List.replicate texts.length (none : Option Vec)).getD i none =
        none := by
      rw [List.getD_eq_getElem?_getD, List.getElem?_replicate, if_pos hi]
      rfl
    rw [hrep]
    cases ((entries.filter (fun e => e.index = (i : Int))).map
      (fun e => e.embedding)).getLast? with
    | none => rfl
    | some v => rfl

/-- Witness for the amended C10: a two-text batch with one in-range and one
dropped out-of-range entry. -/
theorem embedBatch_nonneg_writeback_witness :
    (∀ e ∈ [EmbEntry.mk 0 [1], EmbEntry.mk 5 [2]], 0 ≤ e.index) ∧
    ∃ slots, embedBatchWriteback ["a", "b"]
        [EmbEntry.mk 0 [1], EmbEntry.mk 5 [2]] = some slots ∧
      slots.length = (["a", "b"] : List String).length ∧
      ∀ i, i < (["a", "b"] : List String).length →
        slots.getD i none =
          (([EmbEntry.mk 0 [1], EmbEntry.mk 5 [2]].filter
            (fun e => e.index = (i : Int))).map
              (fun e => e.embedding)).getLast? :=
  ⟨by decide, embedBatch_nonneg_writeback ["a", "b"]
    [EmbEntry.mk 0 [1], EmbEntry.mk 5 [2]] (by decide)⟩

/- ### Claim C9 - contradiction driver ordering -/

/-- Counterexample to claim C9: two pairs both classified as severity
`high`, the first with confidence 0 and the second with confidence 1,
received in input order.  The final sort compares severities only, so the
output keeps confidences in ascending order `[0, 1]`, violating the claimed
confidence-descending tie-break. -/
theorem detectContradictions_confidence_counterexample :
    ¬ sortedBySeverityThenConfidence
      (detectContradictions 1 100
        (fun p => Except.ok (some (ContradictionResult.mk p.statement1
          p.statement2 "direct" "high"
          (if p.statement1 = "s0" then 0 else 1))))
        [StatementPair.mk "s0" "t0" 1, StatementPair.mk "s1" "t1" 1]
        [0, 1]) := by
  decide

/-- Every record emitted by `AnalyzePairs` has a non-empty type. -/
theorem analyzePairs_mem_types
    (classify : StatementPair → Except Unit (Option ContradictionResult))
    (pairs : List StatementPair) (arrival : List Nat)
    (r : ContradictionResult)
    (hr : r ∈ analyzePairs classify pairs arrival) : r.ctype ≠ "" := by
  unfold analyzePairs at hr
  obtain ⟨idx, _, hmatch⟩ := List.mem_filterMap.mp hr
  revert hmatch
  cases pairs.get? idx with
  | none =>
    intro hmatch
    exact absurd hmatch (by simp)
  | some p =>
    intro hmatch
    have h1 : (match classify p with
        | Except.error _ => (none : Option ContradictionResult)
        | Except.ok none => none
        | Except.ok (some cr) => if cr.ctype = "" then none else some cr) =
        some r := hmatch
    revert h1
    cases classify p with
    | error e =>
      intro h1
      exact absurd h1 (by simp)
    | ok o =>
      cases o with
      | none =>
        intro h1
        exact absurd h1 (by simp)
      | some cr =>
        intro h1
        have h2 : (if cr.ctype = "" then (none : Option ContradictionResult)
            else some cr) = some r := h1
        by_cases ht : cr.ctype = ""
        · rw [if_pos ht] at h2
          exact absurd h2 (by simp)
        · rw [if_neg ht] at h2
          rw [← Option.some.inj h2]
          exact ht

/-- Claim C9, amended: `DetectContradictions` returns only classifier
results whose type is non-empty, sorted by severity (High > Medium > Low)
only; within equal severity the order is whatever the concurrent completion
order produced, not a confidence tie-break.  Classifier errors on
individual pairs are skipped and never fail the operation: the result is
always defined and is a permutation of the successfully classified,
non-empty-typed records of the analyzed pairs. -/
theorem detectContradictions_severity_sorted (minSim : ℚ) (maxPairs : Nat)
    (classify : StatementPair → Except Unit (Option ContradictionResult))
    (pairs : List StatementPair) (arrival : List Nat) :
    List.Pairwise
      (fun a b => severityOrder b.severity ≤ severityOrder a.severity)
      (detectContradictions minSim maxPairs classify pairs arrival) ∧
    (detectContradictions minSim maxPairs classify pairs arrival).Perm
      (analyzePairs classify
        (if maxPairs < (filterPairs pairs minSim).length then
          (goSortSlice (fun a b => decide (b.similarity < a.similarity))
            (filterPairs pairs minSim)).take maxPairs
        else filterPairs pairs minSim) arrival) ∧
    ∀ r ∈ detectContradictions minSim maxPairs classify pairs arrival,
      r.ctype ≠ "" := by
  refine ⟨?_, ?_, ?_⟩
  · exact goSortSlice_sorted_key
      (fun r : ContradictionResult => severityOrder r.severity) _
  · exact goSortSlice_perm _ _
  · intro r hr
    have hperm := goSortSlice_perm
      (fun a b => decide (severityOrder b.severity < severityOrder a.severity))
      (analyzePairs classify
        (if maxPairs < (filterPairs pairs minSim).length then
          (goSortSlice (fun a b => decide (b.similarity < a.similarity))
            (filterPairs pairs minSim)).take maxPairs
        else filterPairs pairs minSim) arrival)
    exact analyzePairs_mem_types classify _ arrival r (hperm.mem_iff.mp hr)

/- ### Claim C8 - deterministic k-means (continued below) -/

/-- Witness for C8: two different data sets sharing the seed observations,
concrete global states, and a concrete fit. -/
theorem kmeans_fit_deterministic_witness :
    seedObservations [[0, 5], [0, 6], [0, 7]] =
      seedObservations [[0, 9], [0, 8], [0, 7]] ∧
    (kMeansFitS [[1, 0], [0, 1]] 2 (mkGoRand 3)).1 =
      (kMeansFitS [[1, 0], [0, 1]] 2 (mkGoRand 99)).1 ∧
    computeDataSeed [[0, 5], [0, 6], [0, 7]] =
      computeDataSeed [[0, 9], [0, 8], [0, 7]] := by
  have h := kmeans_fit_deterministic [[1, 0], [0, 1]] 2 (mkGoRand 3)
    (mkGoRand 99) [[0, 5], [0, 6], [0, 7]] [[0, 9], [0, 8], [0, 7]] (by decide)
  exact ⟨by decide, h.1, h.2.2⟩

/- ### Claim C7 - cached embedding client -/

/-- Recombination at a cache hit. -/
theorem combineEmb_cons_hit (key : String → String)
    (cache : String → Option Vec) (t : String) (ts : List String)
    (news : List Vec) (v : Vec) (hc : cache (key t) = some v) :
    combineEmb key cache (t :: ts) news =
      (combineEmb key cache ts news).map (fun r => v :: r) := by
  conv_lhs => unfold combineEmb
  rw [hc]
  rfl

/-- Recombination at a cache miss with no fresh embedding left: the Go
index-out-of-range panic. -/
theorem combineEmb_cons_miss_nil (key : String → String)
    (cache : String → Option Vec) (t : String) (ts : List String)
    (hc : cache (key t) = none) :
    combineEmb key cache (t :: ts) [] = none := by
  conv_lhs => unfold combineEmb
  rw [hc]
  rfl

/-- Recombination at a cache miss consumes the next fresh embedding. -/
theorem combineEmb_cons_miss (key : String → String)
    (cache : String → Option Vec) (t : String) (ts : List String)
    (v : Vec) (rest : List Vec) (hc : cache (key t) = none) :
    combineEmb key cache (t :: ts) (v :: rest) =
      (combineEmb key cache ts rest).map (fun r => v :: r) := by
  conv_lhs => unfold combineEmb
  rw [hc]
  rfl

/-- When every text's key is cached, recombination returns the cached
vectors in input order, whatever fresh embeddings are supplied. -/
theorem combineEmb_all_hit (key : String → String)
    (cache : String → Option Vec) :
    ∀ (texts : List String) (news : List Vec),
      (∀ t ∈ texts, (cache (key t)).isSome) →
      combineEmb key cache texts news =
        some (texts.map (fun t => (cache (key t)).getD [])) := by
  intro texts
  induction texts with
  | nil =>
    intro news _
    rfl
  | cons t ts ih =>
    intro news hall
    obtain ⟨v, hv⟩ := Option.isSome_iff_exists.mp
      (hall t (List.mem_cons_self t ts))
    rw [combineEmb_cons_hit key cache t ts news v hv,
      ih news (fun x hx => hall x (List.mem_cons_of_mem _ hx))]
    simp [hv]

/-- The recombination loop, fed exactly one fresh embedding per cache miss,
succeeds and aligns its output positionally: hits carry the cached vector,
and the miss positions carry the fresh embeddings in order. -/
theorem combineEmb_spec (key : String → String)
    (cache : String → Option Vec) :
    ∀ (texts : List String) (news : List Vec),
      news.length = (texts.filter (fun t => (cache (key t)).isNone)).length →
      ∃ r, combineEmb key cache texts news = some r ∧
        r.length = texts.length ∧
        (∀ i t, texts.get? i = some t → (cache (key t)).isSome →
          r.get? i = cache (key t)) ∧
        ((texts.zip r).filter (fun p => (cache (key p.1)).isNone)).map
          Prod.snd = news := by
  intro texts
  induction texts with
  | nil =>
    intro news hlen
    have hnil : news = [] := List.length_eq_zero.mp (by simpa using hlen)
    subst hnil
    refine ⟨[], rfl, rfl, ?_, by simp⟩
    intro i t h
    simp at h
  | cons t ts ih =>
    intro news hlen
    cases hc : cache (key t) with
    | some v =>
      have hlen2 : news.length =
          (ts.filter (fun t => (cache (key t)).isNone)).length := by
        rw [List.filter_cons_of_neg (by simp [hc])] at hlen
        exact hlen
      obtain ⟨r, hr, hrl, hrget, hrzip⟩ := ih news hlen2
      refine ⟨v :: r, ?_, ?_, ?_, ?_⟩
      · rw [combineEmb_cons_hit key cache t ts news v hc, hr]
        rfl
      · simp [hrl]
      · intro i u hu hsome
        cases i with
        | zero =>
          simp at hu
          subst hu
          simp [hc]
        | succ n =>
          simp only [List.get?_cons_succ] at hu ⊢
          exact hrget n u hu hsome
      · rw [List.zip_cons_cons, List.filter_cons_of_neg (by simp [hc])]
        exact hrzip
    | none =>
      cases news with
      | nil =>
        rw [List.filter_cons_of_pos (by simp [hc])] at hlen
        simp at hlen
      | cons v rest =>
        have hlen2 : rest.length =
            (ts.filter (fun t => (cache (key t)).isNone)).length := by
          rw [List.filter_cons_of_pos (by simp [hc])] at hlen
          simpa using hlen
        obtain ⟨r, hr, hrl, hrget, hrzip⟩ := ih rest hlen2
        refine ⟨v :: r, ?_, ?_, ?_, ?_⟩
        · rw [combineEmb_cons_miss key cache t ts v rest hc, hr]
          rfl
        · simp [hrl]
        · intro i u hu hsome
          cases i with
          | zero =>
            simp at hu
            subst hu
            rw [hc] at hsome
            simp at hsome
          | succ n =>
            simp only [List.get?_cons_succ] at hu ⊢
            exact hrget n u hu hsome
        · rw [List.zip_cons_cons, List.filter_cons_of_pos (by simp [hc]),
            List.map_cons]
          rw [hrzip]

/-- Claim C7: `CachedClient.EmbedTexts` dispatches exactly the uncached
subset of its inputs, in input order, to the underlying client (in
particular, nothing at all when every key is cached, in which case the
cached vectors are returned in input order); provided the underlying client
returns one vector per dispatched text, the overall result succeeds with
exactly one vector per input text, cache hits carrying their cached vector
and miss positions carrying the fresh vectors in order. -/
theorem cachedEmbedTexts_correct (key : String → String)
    (cache : String → Option Vec)
    (remote : List String → Except Unit (List Vec)) (texts : List String)
    (news : List Vec)
    (hremote : remote (texts.filter (fun t => (cache (key t)).isNone)) =
      Except.ok news)
    (hlen : news.length =
      (texts.filter (fun t => (cache (key t)).isNone)).length) :
    ((∀ t ∈ texts, (cache (key t)).isSome) →
      cachedEmbedTexts key cache remote texts =
        (Except.ok (some (texts.map (fun t => (cache (key t)).getD []))),
          [])) ∧
    (cachedEmbedTexts key cache remote texts).2 =
      texts.filter (fun t => (cache (key t)).isNone) ∧
    ∃ r, (cachedEmbedTexts key cache remote texts).1 = Except.ok (some r) ∧
      r.length = texts.length ∧
      (∀ i t, texts.get? i = some t → (cache (key t)).isSome →
        r.get? i = cache (key t)) ∧
      ((texts.zip r).filter (fun p => (cache (key p.1)).isNone)).map
        Prod.snd = news := by
  by_cases hempty : texts.length = 0
  · have htx : texts = [] := List.length_eq_zero.mp hempty
    subst htx
    have hnews : news = [] := List.length_eq_zero.mp (by simpa using hlen)
    subst hnews
    refine ⟨fun _ => rfl, rfl, [], rfl, rfl, ?_, by simp⟩
    intro i t h
    simp at h
  · by_cases hune : (texts.filter (fun t => (cache (key t)).isNone)).length = 0
    · have hfil : texts.filter (fun t => (cache (key t)).isNone) = [] :=
        List.length_eq_zero.mp hune
      have hcall : cachedEmbedTexts key cache remote texts =
          (Except.ok (combineEmb key cache texts []), []) := by
        unfold cachedEmbedTexts
        rw [if_neg hempty, if_pos hune]
      have hnews : news = [] := by
        rw [hfil] at hlen
        exact List.length_eq_zero.mp (by simpa using hlen)
      subst hnews
      obtain ⟨r, hr, hrl, hrget, hrzip⟩ := combineEmb_spec key cache texts []
        (by rw [hfil]; rfl)
      refine ⟨?_, ?_, r, ?_, hrl, hrget, hrzip⟩
      · intro hall
        rw [hcall, combineEmb_all_hit key cache texts [] hall]
      · rw [hcall, hfil]
      · rw [hcall]
        simp only
        rw [hr]
    · have hcall : cachedEmbedTexts key cache remote texts =
          (Except.ok (combineEmb key cache texts news),
            texts.filter (fun t => (cache (key t)).isNone)) := by
        unfold cachedEmbedTexts
        rw [if_neg hempty, if_neg hune, hremote]
      obtain ⟨r, hr, hrl, hrget, hrzip⟩ := combineEmb_spec key cache texts news
        hlen
      refine ⟨?_, ?_, r, ?_, hrl, hrget, hrzip⟩
      · intro hall
        exfalso
        apply hune
        rw [List.length_eq_zero, List.filter_eq_nil_iff]
        intro t ht
        have := hall t ht
        simp [Option.isNone_iff_eq_none]
        intro hcnone
        rw [hcnone] at this
        simp at this
      · rw [hcall]
      · rw [hcall]
        simp only
        rw [hr]

/-- Witness for C7: a two-text batch with one cached and one uncached
text. -/
theorem cachedEmbedTexts_correct_witness :
    witnessRemote ((["a", "b"] : List String).filter
        (fun t => (witnessCache (id t)).isNone)) = Except.ok [([7] : Vec)] ∧
    ∃ r, (cachedEmbedTexts id witnessCache witnessRemote ["a", "b"]).1 =
        Except.ok (some r) ∧
      r.length = (["a", "b"] : List String).length ∧
      (∀ i t, (["a", "b"] : List String).get? i = some t →
        (witnessCache (id t)).isSome →
        r.get? i = witnessCache (id t)) ∧
      (((["a", "b"] : List String).zip r).filter
        (fun p => (witnessCache (id p.1)).isNone)).map Prod.snd =
        [([7] : Vec)] := by
  have h := cachedEmbedTexts_correct id witnessCache witnessRemote
    ["a", "b"] [([7] : Vec)] (by rfl) (by rfl)
  exact ⟨by rfl, h.2.2⟩

/- ### Claim C2 - top-k similar pairs -/

/-- A one-element list is fixed by any `sort.Slice`. -/
theorem goSortSlice_singleton {α : Type} (lt : α → α → Bool) (x : α) :
    goSortSlice lt [x] = [x] := rfl

/-- The cosine similarity of the two orthogonal unit vectors is zero. -/
theorem cosine_orth : cosineSimilarity [1, 0] [0, 1] = 0 := by
  unfold cosineSimilarity
  norm_num [dotQ, sumSq, Real.sqrt_one]

/-- `FindSimilarPairs` at threshold 0 filters with the 0.75 default, so the
orthogonal pair is dropped. -/
theorem findSimilarPairs_orth : findSimilarPairs [[1, 0], [0, 1]] 0 = [] := by
  simp only [findSimilarPairs]
  rw [if_neg (by norm_num)]
  have hup : upperPairs ([[1, 0], [0, 1]] : List (List ℚ)).length =
      [(0, 1)] := by
    decide
  rw [hup]
  rw [List.filterMap_cons_none]
  · rfl
  · show (if (if (0 : ℝ) ≤ 0 then defaultThreshold else 0) ≤
        cosineSimilarity (([[1, 0], [0, 1]] : List (List ℚ)).getD 0 [])
          (([[1, 0], [0, 1]] : List (List ℚ)).getD 1 []) then
        some (SimilarPair.mk 0 1
          (cosineSimilarity (([[1, 0], [0, 1]] : List (List ℚ)).getD 0 [])
            (([[1, 0], [0, 1]] : List (List ℚ)).getD 1 []))) else none) = none
    rw [if_neg]
    rw [if_pos le_rfl]
    show ¬ defaultThreshold ≤ cosineSimilarity [1, 0] [0, 1]
    rw [cosine_orth]
    norm_num [defaultThreshold]

/-- Counterexample to claim C2: on the two orthogonal unit vectors with
`k = 1`, `TopKSimilar` returns no pairs (the pair's similarity 0 falls below
the 0.75 default threshold that `FindSimilarPairs(E, 0)` applies), while the
claim's unfiltered reading returns the pair `(0, 1)`. -/
theorem topKSimilar_counterexample :
    topKSimilar [[1, 0], [0, 1]] 1 = [] ∧
    topKSimilarSpec [[1, 0], [0, 1]] 1 ≠ [] := by
  constructor
  · simp only [topKSimilar]
    rw [if_neg (by norm_num), findSimilarPairs_orth]
    norm_num
  · simp only [topKSimilarSpec]
    have hup : upperPairs ([[1, 0], [0, 1]] : List (List ℚ)).length =
        [(0, 1)] := by
      decide
    rw [hup]
    simp only [List.map_cons, List.map_nil]
    rw [goSortSlice_singleton]
    simp

/-- Claim C2, amended: for every embedding list and every `k > 0`,
`TopKSimilar(E, k)` equals `FindSimilarPairs(E, 0)` truncated to its first
`k` entries - and `FindSimilarPairs` at a non-positive threshold filters
with the 0.75 default, so pairs below 0.75 never appear, whatever `k`. -/
theorem topKSimilar_truncates (E : List (List ℚ)) (k : Nat) (hk : 0 < k) :
    topKSimilar E k = (findSimilarPairs E 0).take k := by
  simp only [topKSimilar]
  by_cases hE : E.length = 0
  · rw [if_pos (Or.inl hE)]
    have hfs : findSimilarPairs E 0 = [] := by
      unfold findSimilarPairs
      rw [if_pos hE]
    rw [hfs, List.take_nil]
  · rw [if_neg (by push_neg; exact ⟨hE, by omega⟩)]
    by_cases hlen : k < (findSimilarPairs E 0).length
    · rw [if_pos hlen]
    · rw [if_neg hlen, List.take_of_length_le (le_of_not_lt hlen)]

/-- Witness for the amended C2 on the empty embedding list. -/
theorem topKSimilar_truncates_witness :
    0 < 1 ∧ topKSimilar ([] : List (List ℚ)) 1 =
      (findSimilarPairs ([] : List (List ℚ)) 0).take 1 :=
  ⟨by norm_num, topKSimilar_truncates ([] : List (List ℚ)) 1 (by norm_num)⟩

/- ### Claim C5 - single-statement analysis -/

/-- `math.MaxFloat64` is positive. -/
theorem maxFloat64_pos : 0 < maxFloat64 := by
  norm_num [maxFloat64]

/-- A point is at squared distance zero from itself. -/
theorem sqdist_self (c : List ℚ) : squaredEuclideanDistance c c = 0 := by
  unfold squaredEuclideanDistance
  apply List.sum_eq_zero
  intro x hx
  obtain ⟨i, _, rfl⟩ := List.mem_map.mp hx
  simp

/-- Adding the zero vector is the identity. -/
theorem addVec_zero (c : List ℚ) :
    addVec (List.replicate c.length 0) c = c := by
  induction c with
  | nil => rfl
  | cons x xs ih =>
    simp only [List.length_cons, List.replicate_succ, addVec,
      List.zipWith_cons_cons, zero_add]
    rw [show List.zipWith (fun x y => x + y) (List.replicate xs.length 0) xs =
      addVec (List.replicate xs.length 0) xs from rfl, ih]

/-- A single point assigned against its own singleton centroid list gets
label 0 at distance 0. -/
theorem assignPoint_single (c : List ℚ) : assignPoint [c] c = (0, 0) := by
  unfold assignPoint
  simp only [List.foldl_cons, List.foldl_nil, sqdist_self]
  rw [if_pos maxFloat64_pos]

/-- The assignment phase on one point and one centroid. -/
theorem kMeansAssign_single (c : List ℚ) : kMeansAssign [c] [c] = ([0], 0) := by
  unfold kMeansAssign
  simp [assignPoint_single]

/-- k-means++ on a single point chooses that point. -/
theorem kppInit_single (c : List ℚ) : kMeansPlusPlusInit [c] 1 = [c] := by
  unfold kMeansPlusPlusInit
  simp [GoRand.intn, GoRand.next, Nat.mod_one, List.range']

/-- The step equation of the fit loop. -/
theorem kMeansFitLoop_succ (data : List (List ℚ)) (k dim fuel : Nat)
    (centroids : List (List ℚ)) (prev : ℚ) (first : Bool) :
    kMeansFitLoop data k dim (fuel + 1) centroids prev first =
      (let li := kMeansAssign data centroids
       if first = false ∧ absQ (prev - li.2) < kMeansTolerance then li
       else if fuel = 0 then li
       else kMeansFitLoop data k dim fuel (kMeansUpdate data li.1 k dim)
         li.2 false) := rfl

/-- The update phase on one point labelled 0 with one cluster returns the
point itself as centroid. -/
theorem kMeansUpdate_single (c : List ℚ) :
    kMeansUpdate [c] [0] 1 c.length = [c] := by
  unfold kMeansUpdate
  simp [show List.range 1 = [0] from rfl, addVec_zero, div_one]

/-- `KMeans.Fit` on a single point: one cluster, label 0, zero inertia. -/
theorem kmeans_fit_single (c : List ℚ) : kMeansFitFull [c] 1 = ([0], 0) := by
  unfold kMeansFitFull
  rw [if_neg (by norm_num)]
  show kMeansFitLoop [c] 1 c.length 100 (kMeansPlusPlusInit [c] 1) 0 true =
    ([0], 0)
  rw [kppInit_single, show (100 : ℕ) = 99 + 1 from rfl, kMeansFitLoop_succ]
  simp only [kMeansAssign_single]
  rw [if_neg (by simp), if_neg (by norm_num), kMeansUpdate_single,
    show (99 : ℕ) = 98 + 1 from rfl, kMeansFitLoop_succ]
  simp only [kMeansAssign_single]
  rw [if_pos (by norm_num [absQ, kMeansTolerance])]

/-- The inertia curve of a single point is `[0]`. -/
theorem elbow_single (c : List ℚ) : elbowMethod [c] 1 = [0] := by
  unfold elbowMethod
  show (List.range' 1 1).map (fun k => (kMeansFitFull [c] k).2) = [0]
  rw [show List.range' 1 1 = [1] from rfl]
  simp [kmeans_fit_single]

/-- Cluster labelling of a single point with `k = 1`. -/
theorem clusterLabels_single (c : List ℚ) :
    clusterLabels [c] 1 = ([0], 1) := by
  unfold clusterLabels
  rw [if_neg (by simp)]
  show (kMeansFit [c] 1, 1) = ([0], 1)
  unfold kMeansFit
  rw [kmeans_fit_single]

/-- The coordinate-space auto-clusterer on a single point produces cluster
count 1 with label 0. -/
theorem autoCluster_single (c : List ℚ) :
    autoClusterCoordinates [c] 10 = ([0], 1) := by
  unfold autoClusterCoordinates
  rw [if_neg (by simp)]
  show clusterLabels [c] (findElbow (elbowMethod [c] 1)) = ([0], 1)
  rw [elbow_single, show findElbow [0] = 1 by norm_num [findElbow],
    clusterLabels_single]

/-- The distance detector gives the constant score `1/2` to a single
statement: its neighbour list is empty, the raw score is 0, and min-max
normalization of an all-equal vector is the constant `1/2`. -/
theorem distanceDetect_single (e : List ℚ) :
    distanceDetect [e] 5 = [(1 / 2 : ℝ)] := by
  unfold distanceDetect
  rw [if_neg (by norm_num)]
  norm_num [show List.range 1 = [0] from rfl, normalizeScoresR, sortFloats]

/-- An isolation forest built on a single statement consists entirely of
size-1 leaves and consumes no randomness. -/
theorem buildForestS_single (e : List ℚ) :
    ∀ (n : Nat) (s : GoRand),
      buildForestS n 0 1 [e] s = (List.replicate n (IsoNode.leaf 1), s) := by
  intro n
  induction n with
  | zero =>
    intro s
    rfl
  | succ m ih =>
    intro s
    have hsample : sampleDataS [e] 1 s = ([e], s) := rfl
    have htree : buildIsolationTreeS 0 [e] s = (IsoNode.leaf 1, s) := rfl
    rw [buildForestS]
    simp only [hsample, htree, ih]
    rw [List.replicate_succ]

/-- `IsolationForest.Fit` on a single statement. -/
theorem isolationFitS_single (e : List ℚ) (s : GoRand) :
    isolationFitS 100 256 [e] s = (List.replicate 100 (IsoNode.leaf 1), s) := by
  unfold isolationFitS
  rw [if_neg (by simp)]
  show buildForestS 100 (Nat.clog 2 (min 256 [e].length)) (min 256 [e].length)
    [e] s = (List.replicate 100 (IsoNode.leaf 1), s)
  rw [show min 256 [e].length = 1 from rfl, Nat.clog_one_right,
    buildForestS_single e 100 s]

/-- A forest of size-1 leaves scores every point exactly 1: the average path
length is 0 and `2^(-0/c) = 1`. -/
theorem isolationScore_single (e : List ℚ) :
    isolationScore (List.replicate 100 (IsoNode.leaf 1)) 256 [e] = [1] := by
  unfold isolationScore
  rw [if_neg (by simp)]
  have hpl : pathLengthR e (IsoNode.leaf 1) 0 = 0 := by
    unfold pathLengthR expectedPathLengthR
    norm_num
  simp only [List.map_cons, List.map_nil, List.map_replicate, hpl]
  rw [List.sum_replicate]
  norm_num [Real.rpow_zero]

/-- The isolation-score normalizer `c(256)` read from the unclamped
configured sample size is positive, so the division in `Score` is
well-defined and the exact model divides by the same nonzero value. -/
theorem expectedPathLength_256_pos : 0 < expectedPathLengthR 256 := by
  unfold expectedPathLengthR
  rw [if_neg (by norm_num), if_neg (by norm_num)]
  have h1 : Real.log 2 ≤ Real.log 255 := by
    apply Real.log_le_log (by norm_num)
    norm_num
  have h2 := Real.log_two_gt_d9
  nlinarith

/-- The default ensemble on a single statement: distance component `1/2`,
isolation component `1`, mean `3/4`; the process random state is left
untouched. -/
theorem ensembleScoreS_single (e : List ℚ) (s : GoRand) :
    ensembleScoreS [e] s = ([(3 / 4 : ℝ)], s) := by
  unfold ensembleScoreS
  simp only [anomalyDefaultK, anomalyDefaultNumTrees, anomalyDefaultSampleSize,
    distanceDetect_single, isolationFitS_single, isolationScore_single]
  norm_num [show List.range 1 = [0] from rfl]

/-- Min-max normalization of a single row maps it to the origin (every
column's minimum equals its maximum). -/
theorem normalizeCoordinates_single (c : List ℚ)
    (hb : ∀ v ∈ c, -maxFloat64 < v ∧ v < maxFloat64) :
    normalizeCoordinates [c] = [List.replicate c.length (0 : ℚ)] := by
  unfold normalizeCoordinates
  simp only [List.map_cons, List.map_nil]
  congr 1
  rw [List.eq_replicate_iff]
  constructor
  · simp
  · intro b hb2
    obtain ⟨j, hj, rfl⟩ := List.mem_map.mp hb2
    have hjlt : j < c.length := List.mem_range.mp hj
    have hvmem : c.getD j 0 ∈ c := by
      rw [List.getD_eq_getElem?_getD, List.getElem?_eq_getElem hjlt]
      exact List.getElem_mem hjlt
    have hv := hb (c.getD j 0) hvmem
    have hmn : colMin [c] j = c.getD j 0 := by
      unfold colMin
      simp only [List.foldl_cons, List.foldl_nil]
      rw [if_pos hv.2]
    have hmx : colMax [c] j = c.getD j 0 := by
      unfold colMax
      simp only [List.foldl_cons, List.foldl_nil]
      rw [if_pos hv.1]
    show (let mn := colMin [c] j
          let mx := colMax [c] j
          let rng := mx - mn
          if rng = 0 then (0 : ℚ) else 2 * (c.getD j 0 - mn) / rng - 1) = 0
    simp only [hmn, hmx]
    rw [if_pos (sub_self _)]

/-- Counterexample to claim C5 as stated: the single statement with
embedding `[1, 2]` receives ensemble anomaly score `3/4` (distance
component `1/2`, isolation component `1`), not the claimed `0.5`. -/
theorem ensemble_single_not_half :
    (ensembleScoreS [[1, 2]] (mkGoRand 0)).1 = [(3 / 4 : ℝ)] ∧
    ((3 / 4 : ℝ)) ≠ (1 / 2 : ℝ) := by
  constructor
  · rw [ensembleScoreS_single]
  · norm_num

/-- Claim C5, amended: a single statement with a non-empty embedding yields
cluster count 1 with label 0 (modelled coordinate-space auto-clusterer), a
point at the origin after min-max normalization of the single projected
row, and ensemble anomaly score 0.75 - the mean of the distance detector's
all-equal fallback 0.5 and the isolation-forest score 1.0 - while leaving
the process random state untouched. -/
theorem single_statement_analysis (e c : List ℚ) (s : GoRand)
    (_he : e ≠ []) (hb : ∀ v ∈ c, -maxFloat64 < v ∧ v < maxFloat64) :
    normalizeCoordinates [c] = [List.replicate c.length (0 : ℚ)] ∧
    autoClusterCoordinates [c] 10 = ([0], 1) ∧
    ensembleScoreS [e] s = ([(3 / 4 : ℝ)], s) :=
  ⟨normalizeCoordinates_single c hb, autoCluster_single c,
    ensembleScoreS_single e s⟩

/-- Witness for the amended C5 at the embedding `[1, 2]` and projected
coordinates `[0, 0]`. -/
theorem single_statement_analysis_witness :
    (([1, 2] : List ℚ) ≠ [] ∧
      ∀ v ∈ ([0, 0] : List ℚ), -maxFloat64 < v ∧ v < maxFloat64) ∧
    normalizeCoordinates [([0, 0] : List ℚ)] =
      [List.replicate ([0, 0] : List ℚ).length (0 : ℚ)] ∧
    autoClusterCoordinates [([0, 0] : List ℚ)] 10 = ([0], 1) ∧
    ensembleScoreS [([1, 2] : List ℚ)] (mkGoRand 7) =
      ([(3 / 4 : ℝ)], mkGoRand 7) := by
  have hb : ∀ v ∈ ([0, 0] : List ℚ), -maxFloat64 < v ∧ v < maxFloat64 := by
    intro v hv
    have hv0 : v = 0 := by
      simpa using hv
    subst hv0
    constructor
    · simpa using neg_lt_zero.mpr maxFloat64_pos
    · exact maxFloat64_pos
  have h := single_statement_analysis [1, 2] [0, 0] (mkGoRand 7)
    (by simp) hb
  exact ⟨⟨by simp, hb⟩, h.1, h.2.1, h.2.2⟩

end DocAnalyzer
